import Mathlib

/-!
Verification of the Valuedex hybrid forecasting and investment-scoring engine
(`backend/app/ml/predictor.py` and `backend/app/services/features.py`).

Numeric model: Python/numpy floats are embedded as exact rationals extended
with a poison value `NF.nan` standing for the non-finite results (NaN and the
infinities produced by division by zero; in this code base every infinity
produced by a zero divisor immediately flows into a standard deviation, where
it degenerates to NaN, so the two are conflated).  Comparisons against `nan`
are false, mirroring IEEE semantics as used by the Python branches.

The two transcendental ingredients, `sqrt` (used by `np.sqrt`/`np.std`) and
`exp` (used in the geometric-Brownian-motion step), are modelled as abstract
parameters `sq : Q -> Q` and `E : Q -> Q`; `E` is assumed positive where a
theorem needs it, exactly as `exp` is positive.  The normal shocks drawn from
the global `np.random` generator are modelled as a single stream
`shocks : Nat -> Q` consumed at deterministic indices, which is faithful to a
shared global generator: one call consumes a prefix, the next call continues
where the previous one stopped.
-/

namespace Valuedex

/-- A numpy scalar: either a finite value (exact rational) or non-finite. -/
inductive NF where
  | fin (q : ℚ)
  | nan
deriving DecidableEq, Repr

namespace NF

def isNan : NF → Bool
  | nan => true
  | fin _ => false

def add : NF → NF → NF
  | fin a, fin b => fin (a + b)
  | _, _ => nan

def sub : NF → NF → NF
  | fin a, fin b => fin (a - b)
  | _, _ => nan

def mul : NF → NF → NF
  | fin a, fin b => fin (a * b)
  | _, _ => nan

/-- numpy true division; a zero divisor yields a non-finite result. -/
def div : NF → NF → NF
  | fin a, fin b => if b = 0 then nan else fin (a / b)
  | _, _ => nan

/-- Strict `<` as a Python/IEEE comparison: any comparison with NaN is false. -/
def blt : NF → NF → Bool
  | fin a, fin b => decide (a < b)
  | _, _ => false

/-- Python `min(a, b)`: returns `b` if `b < a` else `a` (NaN-asymmetric). -/
def minPy (a b : NF) : NF := if blt b a then b else a

/-- Python `max(a, b)`: returns `b` if `a < b` else `a` (NaN-asymmetric). -/
def maxPy (a b : NF) : NF := if blt a b then b else a

/-- `np.clip(x, lo, hi)` for finite rational bounds. -/
def clip (x : NF) (lo hi : ℚ) : NF :=
  match x with
  | nan => nan
  | fin v => fin (max lo (min v hi))

end NF

/-- Round half to even (Python `round` tie-breaking) to an integer. -/
def rhe (x : ℚ) : ℤ :=
  if x - ⌊x⌋ < 1/2 then ⌊x⌋
  else if (1/2 : ℚ) < x - ⌊x⌋ then ⌊x⌋ + 1
  else if 2 ∣ ⌊x⌋ then ⌊x⌋ else ⌊x⌋ + 1

/-- Python `round(x, 2)`. -/
def round2 (x : ℚ) : ℚ := (rhe (x * 100) : ℚ) / 100

/-- Python `round(x, 3)`. -/
def round3 (x : ℚ) : ℚ := (rhe (x * 1000) : ℚ) / 1000

def NF.round2 : NF → NF
  | fin q => fin (Valuedex.round2 q)
  | nan => nan

def NF.round3 : NF → NF
  | fin q => fin (Valuedex.round3 q)
  | nan => nan

lemma rhe_floor_le (x : ℚ) : ⌊x⌋ ≤ rhe x := by
  unfold rhe
  by_cases h1 : x - ⌊x⌋ < 1/2
  · rw [if_pos h1]
  · rw [if_neg h1]
    by_cases h2 : (1/2 : ℚ) < x - ⌊x⌋
    · rw [if_pos h2]; omega
    · rw [if_neg h2]
      by_cases h3 : 2 ∣ ⌊x⌋
      · rw [if_pos h3]
      · rw [if_neg h3]; omega

lemma rhe_le_floor_add_one (x : ℚ) : rhe x ≤ ⌊x⌋ + 1 := by
  unfold rhe
  by_cases h1 : x - ⌊x⌋ < 1/2
  · rw [if_pos h1]; omega
  · rw [if_neg h1]
    by_cases h2 : (1/2 : ℚ) < x - ⌊x⌋
    · rw [if_pos h2]
    · rw [if_neg h2]
      by_cases h3 : 2 ∣ ⌊x⌋
      · rw [if_pos h3]; omega
      · rw [if_neg h3]

lemma rhe_mono {x y : ℚ} (h : x ≤ y) : rhe x ≤ rhe y := by
  rcases lt_or_eq_of_le (Int.floor_le_floor h) with hf | hf
  · calc rhe x ≤ ⌊x⌋ + 1 := rhe_le_floor_add_one x
      _ ≤ ⌊y⌋ := by omega
      _ ≤ rhe y := rhe_floor_le y
  · by_cases hx : x - ⌊x⌋ < 1/2
    · have hrx : rhe x = ⌊x⌋ := by unfold rhe; rw [if_pos hx]
      rw [hrx, hf]
      exact rhe_floor_le y
    · have hfr : x - ⌊x⌋ ≤ y - ⌊y⌋ := by
        rw [← hf]
        linarith
      by_cases hy : (1/2 : ℚ) < y - ⌊y⌋
      · have hry : rhe y = ⌊y⌋ + 1 := by
          unfold rhe
          rw [if_neg (by linarith), if_pos hy]
        rw [hry, ← hf]
        exact rhe_le_floor_add_one x
      · have hx2 : x - ⌊x⌋ = 1/2 := by
          push_neg at hx hy
          linarith
        have hy2 : y - ⌊y⌋ = 1/2 := by
          push_neg at hy
          linarith
        have hxy : x = y := by
          have : x = (⌊x⌋ : ℚ) + 1/2 := by linarith
          have hyv : y = (⌊y⌋ : ℚ) + 1/2 := by linarith
          rw [this, hyv, hf]
        rw [hxy]

lemma rhe_zero : rhe 0 = 0 := by
  unfold rhe
  rw [Int.floor_zero]
  norm_num

lemma rhe_nonneg {x : ℚ} (h : 0 ≤ x) : 0 ≤ rhe x := by
  have := rhe_mono h
  rwa [rhe_zero] at this

lemma rhe_add_hundred (x : ℚ) : rhe (x + 100) = rhe x + 100 := by
  have hfl : ⌊x + 100⌋ = ⌊x⌋ + 100 := by
    have h100 : ⌊x + (100 : ℤ)⌋ = ⌊x⌋ + 100 := Int.floor_add_int x 100
    simp only [Int.cast_ofNat] at h100
    exact_mod_cast h100
  unfold rhe
  rw [hfl]
  have hfr : x + 100 - ((⌊x⌋ + 100 : ℤ) : ℚ) = x - ⌊x⌋ := by
    push_cast
    ring
  rw [hfr]
  have hdvd : (2 ∣ ⌊x⌋ + 100) ↔ (2 ∣ ⌊x⌋) := by omega
  split
  · rfl
  · split
    · ring
    · by_cases hd : 2 ∣ ⌊x⌋
      · rw [if_pos hd, if_pos (hdvd.mpr hd)]
      · rw [if_neg hd, if_neg (fun hc => hd (hdvd.mp hc))]
        ring

lemma rhe_eq_zero_of_lt_half {x : ℚ} (h0 : 0 ≤ x) (h : x < 1/2) : rhe x = 0 := by
  have hfl : ⌊x⌋ = 0 := by
    rw [Int.floor_eq_zero_iff]
    constructor
    · exact h0
    · linarith
  unfold rhe
  rw [hfl]
  simp only [Int.cast_zero, sub_zero]
  rw [if_pos h]

lemma round2_mono {x y : ℚ} (h : x ≤ y) : round2 x ≤ round2 y := by
  unfold round2
  have : rhe (x * 100) ≤ rhe (y * 100) := rhe_mono (by linarith)
  have hc : ((rhe (x * 100) : ℚ)) ≤ ((rhe (y * 100) : ℚ)) := by exact_mod_cast this
  linarith

lemma round2_nonneg {x : ℚ} (h : 0 ≤ x) : 0 ≤ round2 x := by
  unfold round2
  have : (0 : ℤ) ≤ rhe (x * 100) := rhe_nonneg (by linarith)
  have hc : (0 : ℚ) ≤ (rhe (x * 100) : ℚ) := by exact_mod_cast this
  linarith

lemma round2_add_one (x : ℚ) : round2 (x + 1) = round2 x + 1 := by
  unfold round2
  have : (x + 1) * 100 = x * 100 + 100 := by ring
  rw [this, rhe_add_hundred]
  push_cast
  ring

lemma round2_lt_of_add_one_le {x y : ℚ} (h : x + 1 ≤ y) : round2 x < round2 y := by
  have h1 : round2 (x + 1) ≤ round2 y := round2_mono h
  rw [round2_add_one] at h1
  linarith

lemma round2_intCast (n : ℤ) : round2 (n : ℚ) = n := by
  unfold round2
  have hmul : ((n : ℚ) * 100) = ((n * 100 : ℤ) : ℚ) := by push_cast; ring
  have hfl : ⌊(n : ℚ) * 100⌋ = n * 100 := by
    rw [hmul]
    exact Int.floor_intCast _
  unfold rhe
  rw [hfl]
  rw [if_pos (by rw [hmul]; norm_num)]
  push_cast
  field_simp

lemma round2_le_of_le_int {x : ℚ} {n : ℤ} (h : x ≤ n) : round2 x ≤ n := by
  have h1 : round2 x ≤ round2 n := round2_mono h
  rwa [round2_intCast] at h1

lemma round2_ge_of_int_le {x : ℚ} {n : ℤ} (h : (n : ℚ) ≤ x) : (n : ℚ) ≤ round2 x := by
  have h1 : round2 (n : ℚ) ≤ round2 x := round2_mono h
  rwa [round2_intCast] at h1

/-! ### numpy array reductions over NF lists

`np.mean`, `np.std` (population), and `np.percentile` (linear interpolation)
return NaN whenever the input contains a NaN, and otherwise compute the exact
rational reduction. -/

/-- Arithmetic mean of a rational list (callers guard against emptiness). -/
def meanQ (l : List ℚ) : ℚ := l.sum / l.length

/-- Population variance, as used by `np.std` with `ddof=0`. -/
def popVar (l : List ℚ) : ℚ := ((l.map (fun x => (x - meanQ l) ^ 2)).sum) / l.length

def anyNan (xs : List NF) : Bool := xs.any NF.isNan

/-- The finite values of an NF list (equals the whole list when no NaN). -/
def vals (xs : List NF) : List ℚ :=
  xs.filterMap (fun v => match v with | NF.fin q => some q | NF.nan => none)

/-- `np.mean` over an NF array. -/
def npMeanNF (xs : List NF) : NF :=
  if xs.isEmpty || anyNan xs then NF.nan else NF.fin (meanQ (vals xs))

/-- `np.std` (population standard deviation) over an NF array; `sq` models `sqrt`. -/
def npStdNF (sq : ℚ → ℚ) (xs : List NF) : NF :=
  if xs.isEmpty || anyNan xs then NF.nan
  else if popVar (vals xs) < 0 then NF.nan
  else NF.fin (sq (popVar (vals xs)))

/-- Interpolation position of the `q`-th percentile in a list of length `n`:
`q/100 * (n-1)` (the numpy default "linear" method). -/
def pPos (s : List ℚ) (q : ℚ) : ℚ := q / 100 * ((s.length : ℚ) - 1)

/-- Index of the lower neighbouring order statistic. -/
def pIdx (s : List ℚ) (q : ℚ) : ℕ := (⌊pPos s q⌋).toNat

/-- Linear-interpolation percentile over an already sorted rational list
(the numpy default method): position `h = q/100 * (n-1)`, interpolate between
the neighbouring order statistics. -/
def percentileSorted (s : List ℚ) (q : ℚ) : ℚ :=
  match s[pIdx s q]?, s[pIdx s q + 1]? with
  | some a, some b => a + (pPos s q - (pIdx s q : ℚ)) * (b - a)
  | some a, none => a
  | none, _ => 0

/-- `np.percentile` over an NF array (NaN when any element is NaN). -/
def npPercentile (xs : List NF) (q : ℚ) : NF :=
  if xs.isEmpty || anyNan xs then NF.nan
  else NF.fin (percentileSorted (List.insertionSort (· ≤ ·) (vals xs)) q)

lemma vals_all_fin {xs : List NF} (h : anyNan xs = false) :
    xs.map (fun v => match v with | NF.fin q => some q | NF.nan => none)
      = xs.map (fun v => some (match v with | NF.fin q => q | NF.nan => 0)) := by
  induction xs with
  | nil => rfl
  | cons a t ih =>
    simp only [anyNan, List.any_cons, Bool.or_eq_false_iff] at h
    cases a with
    | fin q =>
      simp only [List.map_cons]
      rw [ih]
      simp only [anyNan]
      exact h.2
    | nan => simp [NF.isNan] at h

lemma vals_length {xs : List NF} (h : anyNan xs = false) :
    (vals xs).length = xs.length := by
  induction xs with
  | nil => rfl
  | cons a t ih =>
    simp only [anyNan, List.any_cons, Bool.or_eq_false_iff] at h
    cases a with
    | fin q =>
      simp only [vals, List.filterMap_cons] at *
      simp only [List.length_cons]
      rw [ih h.2]
    | nan => simp [NF.isNan] at h

lemma mem_vals {xs : List NF} {q : ℚ} (h : q ∈ vals xs) : NF.fin q ∈ xs := by
  induction xs with
  | nil => simp [vals] at h
  | cons a t ih =>
    cases a with
    | fin p =>
      simp only [vals, List.filterMap_cons] at h
      rcases List.mem_cons.mp h with h1 | h2
      · rw [h1]; exact List.mem_cons_self _ _
      · exact List.mem_cons_of_mem _ (ih h2)
    | nan =>
      simp only [vals, List.filterMap_cons] at h
      exact List.mem_cons_of_mem _ (ih h)

section PercentileLemmas

variable {s : List ℚ} {q q1 q2 lo hi : ℚ}

lemma pPos_nonneg (hne : s ≠ []) (hq0 : 0 ≤ q) : 0 ≤ pPos s q := by
  have hn : 1 ≤ s.length := List.length_pos.mpr hne
  have : (1 : ℚ) ≤ (s.length : ℚ) := by exact_mod_cast hn
  exact mul_nonneg (div_nonneg hq0 (by norm_num)) (by linarith)

lemma pPos_le (hq0 : 0 ≤ q) (hq1 : q ≤ 100) (hne : s ≠ []) :
    pPos s q ≤ (s.length : ℚ) - 1 := by
  have hn : 1 ≤ s.length := List.length_pos.mpr hne
  have h1 : (1 : ℚ) ≤ (s.length : ℚ) := by exact_mod_cast hn
  have h2 : q / 100 ≤ 1 := by linarith [div_le_one_of_le hq1 (by norm_num : (0:ℚ) ≤ 100)]
  calc pPos s q ≤ 1 * ((s.length : ℚ) - 1) :=
        mul_le_mul_of_nonneg_right h2 (by linarith)
    _ = (s.length : ℚ) - 1 := one_mul _

lemma pIdx_cast (hne : s ≠ []) (hq0 : 0 ≤ q) : ((pIdx s q : ℚ)) = ⌊pPos s q⌋ := by
  have h0 : (0 : ℤ) ≤ ⌊pPos s q⌋ := Int.floor_nonneg.mpr (pPos_nonneg hne hq0)
  unfold pIdx
  rw [show ((((⌊pPos s q⌋).toNat : ℕ) : ℚ)) = (((⌊pPos s q⌋).toNat : ℤ) : ℚ) by
    push_cast; ring]
  rw [Int.toNat_of_nonneg h0]

lemma pIdx_le_pPos (hne : s ≠ []) (hq0 : 0 ≤ q) : ((pIdx s q : ℚ)) ≤ pPos s q := by
  rw [pIdx_cast hne hq0]
  exact Int.floor_le _

lemma pPos_lt_pIdx_add_one (hne : s ≠ []) (hq0 : 0 ≤ q) :
    pPos s q < (pIdx s q : ℚ) + 1 := by
  rw [pIdx_cast hne hq0]
  exact Int.lt_floor_add_one _

lemma pIdx_lt_length (hne : s ≠ []) (hq0 : 0 ≤ q) (hq1 : q ≤ 100) :
    pIdx s q < s.length := by
  have hn : 1 ≤ s.length := List.length_pos.mpr hne
  have h1 : pPos s q ≤ (s.length : ℚ) - 1 := pPos_le hq0 hq1 hne
  have h2 : ((pIdx s q : ℚ)) ≤ (s.length : ℚ) - 1 :=
    le_trans (pIdx_le_pPos hne hq0) h1
  have h3 : ((pIdx s q : ℚ)) < (s.length : ℚ) := by linarith
  exact_mod_cast h3

/-- The interpolated percentile of a sorted-or-not list lies between any
uniform lower and upper bound of its elements. -/
lemma percentileSorted_bounds (hne : s ≠ []) (hq0 : 0 ≤ q) (hq1 : q ≤ 100)
    (lo hi : ℚ) (hall : ∀ x ∈ s, lo ≤ x ∧ x ≤ hi) :
    lo ≤ percentileSorted s q ∧ percentileSorted s q ≤ hi := by
  have hi_lt : pIdx s q < s.length := pIdx_lt_length hne hq0 hq1
  have hf0 : 0 ≤ pPos s q - (pIdx s q : ℚ) := by
    have := pIdx_le_pPos hne hq0
    linarith
  have hf1 : pPos s q - (pIdx s q : ℚ) < 1 := by
    have := pPos_lt_pIdx_add_one hne hq0
    linarith
  have ha := hall _ (List.mem_iff_getElem.mpr ⟨pIdx s q, hi_lt, rfl⟩)
  unfold percentileSorted
  rw [List.getElem?_eq_getElem hi_lt]
  by_cases hsucc : pIdx s q + 1 < s.length
  · rw [List.getElem?_eq_getElem hsucc]
    dsimp only
    have hb := hall _ (List.mem_iff_getElem.mpr ⟨pIdx s q + 1, hsucc, rfl⟩)
    constructor
    · have t1 : 0 ≤ (1 - (pPos s q - (pIdx s q : ℚ))) * (s[pIdx s q] - lo) :=
        mul_nonneg (by linarith) (by linarith [ha.1])
      have t2 : 0 ≤ (pPos s q - (pIdx s q : ℚ)) * (s[pIdx s q + 1] - lo) :=
        mul_nonneg hf0 (by linarith [hb.1])
      nlinarith [t1, t2]
    · have t1 : 0 ≤ (1 - (pPos s q - (pIdx s q : ℚ))) * (hi - s[pIdx s q]) :=
        mul_nonneg (by linarith) (by linarith [ha.2])
      have t2 : 0 ≤ (pPos s q - (pIdx s q : ℚ)) * (hi - s[pIdx s q + 1]) :=
        mul_nonneg hf0 (by linarith [hb.2])
      nlinarith [t1, t2]
  · rw [List.getElem?_eq_none (by omega)]
    exact ha

/-- On a sorted list, the interpolated percentile is monotone in `q`. -/
lemma percentileSorted_mono (hs : s.Sorted (· ≤ ·)) (hne : s ≠ [])
    (h10 : 0 ≤ q1) (h12 : q1 ≤ q2) (h2 : q2 ≤ 100) :
    percentileSorted s q1 ≤ percentileSorted s q2 := by
  have h20 : 0 ≤ q2 := le_trans h10 h12
  have h11 : q1 ≤ 100 := le_trans h12 h2
  have hi1 : pIdx s q1 < s.length := pIdx_lt_length hne h10 h11
  have hi2 : pIdx s q2 < s.length := pIdx_lt_length hne h20 h2
  have hn : 1 ≤ s.length := List.length_pos.mpr hne
  have hpp : pPos s q1 ≤ pPos s q2 := by
    unfold pPos
    have h1q : (1 : ℚ) ≤ (s.length : ℚ) := by exact_mod_cast hn
    have hdiv : q1 / 100 ≤ q2 / 100 := by linarith
    exact mul_le_mul_of_nonneg_right hdiv (by linarith)
  have hidx : pIdx s q1 ≤ pIdx s q2 := by
    have := Int.floor_le_floor (α := ℚ) hpp
    unfold pIdx
    omega
  have hf10 : 0 ≤ pPos s q1 - (pIdx s q1 : ℚ) := by
    have := pIdx_le_pPos hne h10; linarith
  have hf11 : pPos s q1 - (pIdx s q1 : ℚ) < 1 := by
    have := pPos_lt_pIdx_add_one hne h10; linarith
  have hf20 : 0 ≤ pPos s q2 - (pIdx s q2 : ℚ) := by
    have := pIdx_le_pPos hne h20; linarith
  rcases Nat.eq_or_lt_of_le hidx with heq | hlt
  · -- same lower index
    unfold percentileSorted
    rw [← heq, List.getElem?_eq_getElem hi1]
    by_cases hsucc : pIdx s q1 + 1 < s.length
    · rw [List.getElem?_eq_getElem hsucc]
      dsimp only
      have hab : s[pIdx s q1] ≤ s[pIdx s q1 + 1] := by
        have hg := hs.get_mono (a := ⟨pIdx s q1, hi1⟩) (b := ⟨pIdx s q1 + 1, hsucc⟩)
          (Fin.mk_le_mk.mpr (Nat.le_succ _))
        simpa using hg
      have hff : pPos s q1 - (pIdx s q1 : ℚ) ≤ pPos s q2 - (pIdx s q1 : ℚ) := by
        linarith
      have t1 : 0 ≤ ((pPos s q2 - (pIdx s q1 : ℚ)) - (pPos s q1 - (pIdx s q1 : ℚ)))
          * (s[pIdx s q1 + 1] - s[pIdx s q1]) :=
        mul_nonneg (by linarith) (by linarith [hab])
      nlinarith [t1]
    · rw [List.getElem?_eq_none (by omega)]
  · -- strictly larger lower index for q2
    have hsucc1 : pIdx s q1 + 1 < s.length := by omega
    have step1 : percentileSorted s q1 ≤ s[pIdx s q1 + 1] := by
      unfold percentileSorted
      rw [List.getElem?_eq_getElem hi1, List.getElem?_eq_getElem hsucc1]
      dsimp only
      have hab : s[pIdx s q1] ≤ s[pIdx s q1 + 1] := by
        have hg := hs.get_mono (a := ⟨pIdx s q1, hi1⟩) (b := ⟨pIdx s q1 + 1, hsucc1⟩)
          (Fin.mk_le_mk.mpr (Nat.le_succ _))
        simpa using hg
      have t1 : 0 ≤ (1 - (pPos s q1 - (pIdx s q1 : ℚ)))
          * (s[pIdx s q1 + 1] - s[pIdx s q1]) :=
        mul_nonneg (by linarith) (by linarith [hab])
      nlinarith [t1]
    have step2 : s[pIdx s q1 + 1] ≤ s[pIdx s q2] := by
      have hg := hs.get_mono (a := ⟨pIdx s q1 + 1, hsucc1⟩) (b := ⟨pIdx s q2, hi2⟩)
        (Fin.mk_le_mk.mpr hlt)
      simpa using hg
    have step3 : s[pIdx s q2] ≤ percentileSorted s q2 := by
      unfold percentileSorted
      rw [List.getElem?_eq_getElem hi2]
      by_cases hsucc2 : pIdx s q2 + 1 < s.length
      · rw [List.getElem?_eq_getElem hsucc2]
        dsimp only
        have hab : s[pIdx s q2] ≤ s[pIdx s q2 + 1] := by
          have hg := hs.get_mono (a := ⟨pIdx s q2, hi2⟩) (b := ⟨pIdx s q2 + 1, hsucc2⟩)
            (Fin.mk_le_mk.mpr (Nat.le_succ _))
          simpa using hg
        have t1 : 0 ≤ (pPos s q2 - (pIdx s q2 : ℚ)) * (s[pIdx s q2 + 1] - s[pIdx s q2]) :=
          mul_nonneg hf20 (by linarith [hab])
        nlinarith [t1]
      · rw [List.getElem?_eq_none (by omega)]
    exact le_trans step1 (le_trans step2 step3)

/-- A list whose elements are all equal to `c` has every percentile equal to `c`. -/
lemma percentileSorted_const (hne : s ≠ []) (hq0 : 0 ≤ q) (hq1 : q ≤ 100)
    {c : ℚ} (hall : ∀ x ∈ s, x = c) :
    percentileSorted s q = c := by
  have hb := percentileSorted_bounds hne hq0 hq1 c c
    (fun x hx => by rw [hall x hx]; exact ⟨le_refl _, le_refl _⟩)
  linarith [hb.1, hb.2]

end PercentileLemmas

/-! ### Data model

A raw price record is a dict from which the engine reads the keys `price`,
`price_loose` and `volume` (`date` is also read, but feeds only the unused
regression design matrix `X`, so it is not modelled).  A feature dict at the
engine boundary always carries all nine keys (as built by the prediction API),
each possibly `None`; `none` models an absent-or-None field. -/

structure PriceRecord where
  price : Option ℚ
  price_loose : Option ℚ
  volume : Option ℚ
deriving DecidableEq, Repr

/-- `record.get('price', record.get('price_loose', 0))` in `prepare_time_series_data`. -/
def recPrice (r : PriceRecord) : ℚ := r.price.getD (r.price_loose.getD 0)

/-- `record.get('volume', 1) or 1`: absent or zero volume becomes 1. -/
def recVolume (r : PriceRecord) : ℚ :=
  match r.volume with
  | none => 1
  | some v => if v = 0 then 1 else v

structure Features where
  current_price : Option ℚ
  rarity_score : Option ℚ
  popularity_score : Option ℚ
  artist_score : Option ℚ
  trend_30d : Option ℚ
  trend_90d : Option ℚ
  trend_1y : Option ℚ
  volatility : Option ℚ
  market_sentiment : Option ℚ
deriving DecidableEq, Repr

/-- Python `x or default` on an optional number: `None` and `0` are falsy. -/
def orD (o : Option ℚ) (d : ℚ) : ℚ :=
  match o with
  | none => d
  | some v => if v = 0 then d else v

/-- `np.clip` on a plain rational with rational bounds (`lo ≤ hi` in all uses). -/
def clipQ (v lo hi : ℚ) : ℚ := max lo (min v hi)

/-! ### `PricePredictor.exponential_smoothing` (Holt double smoothing).
Only the final `(level, trend)` pair is consumed downstream. -/

def expSmoothStep (alpha beta : ℚ) (st : ℚ × ℚ) (x : ℚ) : ℚ × ℚ :=
  let level := alpha * x + (1 - alpha) * (st.1 + st.2)
  (level, beta * (level - st.1) + (1 - beta) * st.2)

/-- Final `(level, trend)` of `exponential_smoothing(data, alpha, beta)`;
with fewer than 2 points the code returns `(data[-1] or 0, 0)`. -/
def exponential_smoothing (data : List ℚ) (alpha beta : ℚ) : ℚ × ℚ :=
  match data with
  | [] => (0, 0)
  | [x] => (x, 0)
  | x :: y :: rest => (y :: rest).foldl (expSmoothStep alpha beta) (x, y - x)

/-! ### `PricePredictor.calculate_volatility` -/

/-- The elementwise `np.diff(prices) / prices[:-1]`: one simple return per
consecutive pair, with **no** positivity guard on the divisor. -/
def simpleReturnsNF (prices : List ℚ) : List NF :=
  (prices.zip prices.tail).map (fun p => NF.div (NF.fin (p.2 - p.1)) (NF.fin p.1))

/-- `calculate_volatility`: 0 for fewer than 2 points, else
`np.std(returns) * np.sqrt(252)`. -/
def calculate_volatility (sq : ℚ → ℚ) (prices : List ℚ) : NF :=
  if prices.length < 2 then NF.fin 0
  else NF.mul (npStdNF sq (simpleReturnsNF prices)) (NF.fin (sq 252))

/-! ### `PricePredictor.calculate_volume_weighted_price` -/

def calculate_volume_weighted_price (prices volumes : List ℚ) : ℚ :=
  if volumes.isEmpty || volumes.sum = 0 then meanQ prices
  else ((prices.zipWith (· * ·) volumes).sum) / volumes.sum

/-! ### `PricePredictor.calculate_sentiment_multiplier` -/

def calculate_sentiment_multiplier (pop ms t1 : Option ℚ) : ℚ :=
  let p := pop.getD 50
  let m := ms.getD 50
  let t := t1.getD 0
  let popularity_factor := p / 100 * 0.15
  let sentiment_factor := (m - 50) / 50 * 0.10
  let momentum_factor : ℚ :=
    if 20 < t then 0.10 else if 5 < t then 0.05 else if t < -10 then -0.10 else 0
  clipQ (1 + popularity_factor + sentiment_factor + momentum_factor) 0.85 1.25

/-! ### `PricePredictor.monte_carlo_simulation`

`exp(drift + diffusion * Z)` is modelled by the abstract positive function `E`
applied to the (possibly NaN) argument; the normal draws come from the global
stream `shocks`, path `i` consuming indices `i*(days-1) + 0 .. i*(days-1) + days-2`,
exactly the order the two nested Python loops consume the global generator. -/

def mc_days (years_ahead : ℕ) : ℕ := 365 * years_ahead

/-- `max_reasonable = current_price * 1.5 ** years_ahead`. -/
def mc_cap (current_price : ℚ) (years_ahead : ℕ) : ℚ := current_price * (1.5 : ℚ) ^ years_ahead

/-- `drift = clip(trend / current_price * 365, -0.5, 0.3) * (1/365)`. -/
def mc_drift (current_price trend : ℚ) : NF :=
  NF.mul (NF.clip (NF.mul (NF.div (NF.fin trend) (NF.fin current_price)) (NF.fin 365))
    (-0.5) 0.3) (NF.fin (1 / 365))

/-- `diffusion = volatility * np.sqrt(1/365)`. -/
def mc_diffusion (sq : ℚ → ℚ) (volatility : NF) : NF :=
  NF.mul volatility (NF.fin (sq (1 / 365)))

/-- One GBM step multiplier `exp(drift + diffusion * shock)`. -/
def stepMul (E : ℚ → ℚ) (drift diffusion : NF) (z : ℚ) : NF :=
  match NF.add drift (NF.mul diffusion (NF.fin z)) with
  | NF.nan => NF.nan
  | NF.fin x => NF.fin (E x)

/-- `simulations[i, t]`: start at the current price, then multiply by the GBM
step and apply the per-step safety cap `min(S, max_reasonable)`. -/
def simEntry (E : ℚ → ℚ) (shocks : ℕ → ℚ) (drift diffusion : NF)
    (current_price cap : ℚ) (days i : ℕ) : ℕ → NF
  | 0 => NF.fin current_price
  | t + 1 =>
    NF.minPy
      (NF.mul (simEntry E shocks drift diffusion current_price cap days i t)
        (stepMul E drift diffusion (shocks (i * (days - 1) + t))))
      (NF.fin cap)

/-- `final_prices = simulations[:, -1]` over `n_simulations` paths. -/
def mc_finals (E : ℚ → ℚ) (sq : ℚ → ℚ) (shocks : ℕ → ℚ)
    (current_price trend : ℚ) (volatility : NF) (years_ahead n_simulations : ℕ) :
    List NF :=
  (List.range n_simulations).map fun i =>
    simEntry E shocks (mc_drift current_price trend) (mc_diffusion sq volatility)
      current_price (mc_cap current_price years_ahead) (mc_days years_ahead) i
      (mc_days years_ahead - 1)

/-- `(mean, 10th percentile, 90th percentile, final_prices)`. -/
def monte_carlo_simulation (E sq : ℚ → ℚ) (shocks : ℕ → ℚ)
    (current_price trend : ℚ) (volatility : NF) (years_ahead n_simulations : ℕ) :
    NF × NF × NF × List NF :=
  let finals := mc_finals E sq shocks current_price trend volatility years_ahead n_simulations
  (npMeanNF finals, npPercentile finals 10, npPercentile finals 90, finals)

/-! ### `PricePredictor.predict_with_advanced_time_series`

The insufficient-data early return is a dict with only 8 keys; the four keys
read later by `predict_hybrid` are therefore `Option`-valued here, populated
only on the main path. -/

structure TSResult where
  base_prediction : NF
  conservative : NF
  moderate : NF
  aggressive : NF
  confidence_lower : NF
  confidence_upper : NF
  risk_level : String
  volatility : NF
  downside_risk_pct : Option NF
  upside_potential_pct : Option NF
  sentiment_multiplier : Option NF
  current_trend : Option NF
deriving Repr

def seriesPrices (h : List PriceRecord) : List ℚ := h.map recPrice

def seriesVolumes (h : List PriceRecord) : List ℚ := h.map recVolume

/-- The `len(y) < 2` early return: `current_price` is
`price_history[-1].get('price', 0)` (no `price_loose` fallback) or `100.0`. -/
def ts_insufficient (h : List PriceRecord) : TSResult :=
  let current_price : ℚ :=
    match h.getLast? with
    | none => 100
    | some r => r.price.getD 0
  { base_prediction := NF.fin current_price
    conservative := NF.fin (current_price * 0.8)
    moderate := NF.fin current_price
    aggressive := NF.fin (current_price * 1.3)
    confidence_lower := NF.fin (current_price * 0.6)
    confidence_upper := NF.fin (current_price * 1.5)
    risk_level := "high"
    volatility := NF.fin 0
    downside_risk_pct := none
    upside_potential_pct := none
    sentiment_multiplier := none
    current_trend := none }

/-- Volume-weighted current price over the most recent `min(30, n)` observations. -/
def ts_current_price (h : List PriceRecord) : ℚ :=
  let y := seriesPrices h
  let v := seriesVolumes h
  let recent_p := y.drop (y.length - min 30 y.length)
  let recent_v := v.drop (v.length - min 30 v.length)
  calculate_volume_weighted_price recent_p recent_v

/-- Smoother trend adjusted by the sentiment multiplier and clamped to
±0.1% of the current price per day. -/
def ts_adjusted_trend (h : List PriceRecord) (f : Features) : ℚ :=
  let trend := (exponential_smoothing (seriesPrices h) 0.2 0.05).2
  let sm := calculate_sentiment_multiplier f.popularity_score f.market_sentiment f.trend_1y
  let current_price := ts_current_price h
  clipQ (trend * sm) (-(current_price * 0.001)) (current_price * 0.001)

/-- The main path of `predict_with_advanced_time_series` (at least 2 points).
The feature dict built by the API is never empty, so `if features:` is taken. -/
def ts_main (E sq : ℚ → ℚ) (shocks : ℕ → ℚ) (h : List PriceRecord)
    (years_ahead : ℕ) (f : Features) : TSResult :=
  let y := seriesPrices h
  let trend := (exponential_smoothing y 0.2 0.05).2
  let volatility := calculate_volatility sq y
  let current_price := ts_current_price h
  let sm := calculate_sentiment_multiplier f.popularity_score f.market_sentiment f.trend_1y
  let adjusted_trend := ts_adjusted_trend h f
  let mc := monte_carlo_simulation E sq shocks current_price adjusted_trend volatility
    years_ahead 1000
  let finals := mc.2.2.2
  let mc_lower := mc.2.1
  let mc_upper := mc.2.2.1
  let downside_risk := NF.div (NF.sub (NF.fin current_price) mc_lower) (NF.fin current_price)
  let upside_potential := NF.div (NF.sub mc_upper (NF.fin current_price)) (NF.fin current_price)
  let risk_level :=
    if NF.blt (NF.fin 0.30) downside_risk then "high"
    else if NF.blt (NF.fin 0.15) downside_risk then "moderate"
    else "low"
  { base_prediction := mc.1
    conservative := npPercentile finals 25
    moderate := npPercentile finals 50
    aggressive := npPercentile finals 75
    confidence_lower := mc_lower
    confidence_upper := mc_upper
    risk_level := risk_level
    volatility := volatility
    downside_risk_pct := some (NF.mul downside_risk (NF.fin 100))
    upside_potential_pct := some (NF.mul upside_potential (NF.fin 100))
    sentiment_multiplier := some (NF.fin sm)
    current_trend := some (NF.fin trend) }

def predict_with_advanced_time_series (E sq : ℚ → ℚ) (shocks : ℕ → ℚ)
    (h : List PriceRecord) (years_ahead : ℕ) (f : Features) : TSResult :=
  if (seriesPrices h).length < 2 then ts_insufficient h
  else ts_main E sq shocks h years_ahead f

/-! ### `PricePredictor.predict_with_features`

All feature reads use Python `... or default`, so a `0` value falls back to
the default just like `None`.  (`years_ahead - 1` is ℕ subtraction; callers of
the engine pass `years_ahead ≥ 1`.) -/

/-- The growth formula of `predict_with_features` on already-extracted values. -/
def predict_with_features_total (current_price rarity_score popularity_score
    artist_score trend_1y market_sentiment volatility : ℚ) (years_ahead : ℕ) : ℚ :=
  let rarity_boost := rarity_score / 10 * 3.5
  let popularity_boost := popularity_score / 100 * 5
  let artist_boost := artist_score / 10 * 2
  let trend_boost : ℚ :=
    if 20 < trend_1y then 6
    else if 10 < trend_1y then 4
    else if 0 < trend_1y then 2
    else if -10 < trend_1y then 0
    else -3
  let sentiment_boost := (market_sentiment - 50) / 50 * 4
  let volatility_factor := min (volatility * 2) 2
  let annual_growth_rate := 6 + rarity_boost + popularity_boost + artist_boost
    + trend_boost + sentiment_boost + volatility_factor
  let decay_factor := (0.95 : ℚ) ^ (years_ahead - 1)
  let adjusted_growth := annual_growth_rate * decay_factor
  let growth_multiplier := (1 + adjusted_growth / 100) ^ years_ahead
  current_price * growth_multiplier

/-- `predict_with_features`: every field is read as `features.get(key) or default`,
so `None` **and zero** fall back to 100 / 5 / 50 / 5 / 0 / 50 / 0.2. -/
def predict_with_features (f : Features) (years_ahead : ℕ) : ℚ :=
  predict_with_features_total (orD f.current_price 100) (orD f.rarity_score 5)
    (orD f.popularity_score 50) (orD f.artist_score 5) (orD f.trend_1y 0)
    (orD f.market_sentiment 50) (orD f.volatility 0.2) years_ahead

/-! ### `PricePredictor.predict_hybrid`

The result dict (minus `target_date`, which is wall-clock time and carries no
verifiable content).  Reading the four keys that the insufficient-data branch
does not provide raises `KeyError`; `upside_potential_pct` is the first such
read (line 413 of `predictor.py`). -/

structure Scenarios where
  conservative : NF
  moderate : NF
  aggressive : NF
deriving Repr

structure RiskAssessment where
  risk_level : String
  volatility : NF
  downside_risk_pct : NF
  upside_potential_pct : NF
  reward_risk_ratio : NF
deriving Repr

structure MarketFactors where
  sentiment_multiplier : NF
  popularity_score : Option ℚ
  market_sentiment : Option ℚ
  current_trend : NF
deriving Repr

structure PredictionResult where
  predicted_price : NF
  confidence_lower : NF
  confidence_upper : NF
  scenarios : Scenarios
  risk_assessment : RiskAssessment
  market_factors : MarketFactors
  years_ahead : ℕ
  model_version : String
  recommendation : String
  time_series_prediction : NF
  feature_prediction : NF
deriving Repr

/-- The successful body of `predict_hybrid` (all four optional time-series
keys present). -/
def mkHybridResult (ts : TSResult) (upside downside sm ct : NF) (feature_price : ℚ)
    (hist_len years_ahead : ℕ) (f : Features) : PredictionResult :=
  let final_price : NF :=
    if 12 ≤ hist_len then
      NF.add (NF.mul ts.moderate (NF.fin 0.75)) (NF.fin (feature_price * 0.25))
    else
      NF.add (NF.mul ts.moderate (NF.fin 0.5)) (NF.fin (feature_price * 0.5))
  let conservative : NF :=
    if 12 ≤ hist_len then
      NF.add (NF.mul ts.conservative (NF.fin 0.75)) (NF.fin (feature_price * 0.8 * 0.25))
    else
      NF.add (NF.mul ts.conservative (NF.fin 0.5)) (NF.fin (feature_price * 0.85 * 0.5))
  let aggressive : NF :=
    if 12 ≤ hist_len then
      NF.add (NF.mul ts.aggressive (NF.fin 0.75)) (NF.fin (feature_price * 1.2 * 0.25))
    else
      NF.add (NF.mul ts.aggressive (NF.fin 0.5)) (NF.fin (feature_price * 1.15 * 0.5))
  let reward_risk_ratio := NF.div upside (NF.maxPy downside (NF.fin 1))
  let recommendation :=
    if NF.blt (NF.fin 2.5) reward_risk_ratio && (ts.risk_level == "low") then "strong_buy"
    else if NF.blt (NF.fin 1.5) reward_risk_ratio && !(ts.risk_level == "high") then "buy"
    else if NF.blt (NF.fin 1) reward_risk_ratio then "hold"
    else if NF.blt (NF.fin 0.5) reward_risk_ratio then "consider_selling"
    else "sell"
  { predicted_price := final_price.round2
    confidence_lower := ts.confidence_lower.round2
    confidence_upper := ts.confidence_upper.round2
    scenarios :=
      { conservative := conservative.round2
        moderate := final_price.round2
        aggressive := aggressive.round2 }
    risk_assessment :=
      { risk_level := ts.risk_level
        volatility := ts.volatility.round3
        downside_risk_pct := downside.round2
        upside_potential_pct := upside.round2
        reward_risk_ratio := reward_risk_ratio.round2 }
    market_factors :=
      { sentiment_multiplier := sm.round3
        popularity_score := f.popularity_score
        market_sentiment := f.market_sentiment
        current_trend := ct.round2 }
    years_ahead := years_ahead
    model_version := "advanced_v2_crypto"
    recommendation := recommendation
    time_series_prediction := ts.moderate.round2
    feature_prediction := NF.fin (round2 feature_price) }

def predict_hybrid (E sq : ℚ → ℚ) (shocks : ℕ → ℚ) (h : List PriceRecord)
    (f : Features) (years_ahead : ℕ) : Except String PredictionResult :=
  let ts := predict_with_advanced_time_series E sq shocks h years_ahead f
  let feature_price := predict_with_features f years_ahead
  match ts.upside_potential_pct, ts.downside_risk_pct, ts.sentiment_multiplier,
      ts.current_trend with
  | some upside, some downside, some sm, some ct =>
    Except.ok (mkHybridResult ts upside downside sm ct feature_price h.length years_ahead f)
  | none, _, _, _ => Except.error "KeyError: upside_potential_pct"
  | _, _, _, _ => Except.error "KeyError"

/-! ### Two successive `predict` calls on the shared global generator -/

/-- Normal draws consumed by one `predict_hybrid` call
(`n_simulations * (days - 1)` of them). -/
def shocksConsumed (years_ahead : ℕ) : ℕ := 1000 * (mc_days years_ahead - 1)

/-- Two successive calls with identical inputs: the second call reads the
global stream where the first one left off. -/
def predict_twice_global (E sq : ℚ → ℚ) (shocks : ℕ → ℚ) (h : List PriceRecord)
    (f : Features) (years_ahead : ℕ) :
    Except String PredictionResult × Except String PredictionResult :=
  (predict_hybrid E sq shocks h f years_ahead,
   predict_hybrid E sq (fun k => shocks (k + shocksConsumed years_ahead)) h f years_ahead)

/-! ### `FeatureService.calculate_investment_score` -/

/-- `_clamp` with its default bounds 0, 1. -/
def clamp01 (v : ℚ) : ℚ := max 0 (min 1 v)

/-- `FeatureService._scale`. -/
def scaleQ (v lo hi : ℚ) : ℚ :=
  if hi = lo then 0.5 else clamp01 ((v - lo) / (hi - lo))

/-- `FeatureService._prefer_range`. -/
def preferRange (v ideal_min ideal_max abs_min abs_max : ℚ) : ℚ :=
  if v ≤ abs_min ∨ abs_max ≤ v then 0
  else if ideal_min ≤ v ∧ v ≤ ideal_max then 1
  else if v < ideal_min then
    (if ideal_min - abs_min ≤ 0 then 0 else clamp01 (1 - (ideal_min - v) / (ideal_min - abs_min)))
  else
    (if abs_max - ideal_max ≤ 0 then 0 else clamp01 (1 - (v - ideal_max) / (abs_max - ideal_max)))

/-- The clamped composite score (before rounding), on already-defaulted inputs. -/
def investment_score_clamped (current_price rarity_score popularity_score artist_score
    trend_30d trend_90d trend_1y volatility market_sentiment : ℚ) : ℚ :=
  let fundamentals := ((rarity_score / 10) * 0.4 + (popularity_score / 100) * 0.4
    + (artist_score / 10) * 0.2) * 10
  let momentum := (scaleQ trend_30d (-15) 20 * 0.25 + scaleQ trend_90d (-20) 25 * 0.30
    + scaleQ trend_1y (-30) 40 * 0.45) * 10
  let sentiment := (scaleQ market_sentiment 35 80 * 0.65 + (popularity_score / 100) * 0.35) * 10
  let stability := (preferRange volatility 12 28 5 45 * 0.7
    + preferRange current_price 25 250 5 1000 * 0.3) * 10
  let valuation := clamp01 (0.5 + (fundamentals / 10 - scaleQ current_price 50 600) * 0.6) * 10
  let composite := fundamentals * 0.30 + momentum * 0.25 + sentiment * 0.15
    + stability * 0.15 + valuation * 0.15
  let penalty := (if trend_30d < -10 then (0.3 : ℚ) else 0)
    + (if trend_90d < -8 then 0.4 else 0)
    + (if trend_1y < -5 then 0.5 else 0)
    + (if 35 < volatility then 0.4 else 0)
  let bonus : ℚ := if 7.5 ≤ fundamentals ∧ 6.5 ≤ momentum ∧ 6 ≤ sentiment then 0.3 else 0
  max 1 (min 10 (composite - penalty + bonus))

/-- The rating if-chain of `calculate_investment_score`, applied to the
clamped (pre-rounding) score. -/
def ratingOfCode (c : ℚ) : String :=
  if 8.5 ≤ c then "Strong Buy"
  else if 7.0 ≤ c then "Buy"
  else if 5.5 ≤ c then "Hold"
  else if 4.0 ≤ c then "Underperform"
  else "Sell"

/-- `calculate_investment_score`: `None` inputs (and only `None` — zero and
negative values are kept) are replaced by the documented defaults, the score
is clamped to [1, 10] and rounded to 2 decimals. -/
def calculate_investment_score (current_price rarity_score popularity_score artist_score
    trend_30d trend_90d trend_1y volatility market_sentiment : Option ℚ) : ℚ × String :=
  let c := investment_score_clamped (current_price.getD 50) (rarity_score.getD 0)
    (popularity_score.getD 50) (artist_score.getD 5) (trend_30d.getD 0) (trend_90d.getD 0)
    (trend_1y.getD 0) (volatility.getD 15) (market_sentiment.getD 50)
  (round2 c, ratingOfCode c)

/-! ### Specification-side definitions (written from the spec's words,
for comparison with the code-derived definitions above) -/

/-- Modelled from the spec: `default_features()` (spec section 8) is not part of
`src/`; section 3 documents the defaults as rarity=0, popularity=50, artist=5,
trends=0, volatility=15, sentiment=50, current_price=50. -/
def default_features : Features :=
  { current_price := some 50
    rarity_score := some 0
    popularity_score := some 50
    artist_score := some 5
    trend_30d := some 0
    trend_90d := some 0
    trend_1y := some 0
    volatility := some 15
    market_sentiment := some 50 }

/-- A feature dict whose nine keys are all present but `None`. -/
def emptyFeatures : Features :=
  { current_price := none, rarity_score := none, popularity_score := none
    artist_score := none, trend_30d := none, trend_90d := none
    trend_1y := none, volatility := none, market_sentiment := none }

/-- The fixed rating thresholds exactly as the specification states them:
`>= 8.5` Strong Buy, `>= 7.0` Buy, `>= 5.5` Hold, `>= 4.0` Underperform,
otherwise Sell. -/
def spec_rating_thresholds (score : ℚ) : String :=
  if 8.5 ≤ score then "Strong Buy"
  else if 7.0 ≤ score then "Buy"
  else if 5.5 ≤ score then "Hold"
  else if 4.0 ≤ score then "Underperform"
  else "Sell"

/-- The recommendation decision table exactly as the specification states it:
`ratio > 2.5` and low risk gives strong_buy, `ratio > 1.5` and risk not high
gives buy, `ratio > 1.0` hold, `ratio > 0.5` consider_selling, else sell. -/
def spec_recommendation (ratio : NF) (risk : String) : String :=
  if NF.blt (NF.fin 2.5) ratio && (risk == "low") then "strong_buy"
  else if NF.blt (NF.fin 1.5) ratio && !(risk == "high") then "buy"
  else if NF.blt (NF.fin 1) ratio then "hold"
  else if NF.blt (NF.fin 0.5) ratio then "consider_selling"
  else "sell"

/-- The feature growth model as claim C3 describes it: an absent field is
replaced by the documented default (rarity=0, popularity=50, artist=5,
trend=0, volatility=15, sentiment=50, current_price=50) and the substituted
value is then used as-is. -/
def predict_with_features_spec_defaults (f : Features) (years_ahead : ℕ) : ℚ :=
  predict_with_features_total (f.current_price.getD 50) (f.rarity_score.getD 0)
    (f.popularity_score.getD 50) (f.artist_score.getD 5) (f.trend_1y.getD 0)
    (f.market_sentiment.getD 50) (f.volatility.getD 15) years_ahead

/-- The volatility estimator as claim C4 describes it: simple returns only
over pairs whose previous price is positive, then `stdev * sqrt(252)`. -/
def spec_guarded_volatility (sq : ℚ → ℚ) (prices : List ℚ) : ℚ :=
  if prices.length < 2 then 0
  else sq (popVar (((prices.zip prices.tail).filter (fun p => 0 < p.1)).map
    (fun p => (p.2 - p.1) / p.1))) * sq 252

/-- The unguarded simple returns `(p_i - p_{i-1}) / p_{i-1}` over every
consecutive pair, as plain rationals (total when no previous price is 0). -/
def simpleReturnsQ (prices : List ℚ) : List ℚ :=
  (prices.zip prices.tail).map (fun p => (p.2 - p.1) / p.1)

/-! ### Helper lemmas about `predict_hybrid`'s two outcomes -/

/-- Contents of the four optional time-series fields on the main path. -/
def tsUp (E sq : ℚ → ℚ) (shocks : ℕ → ℚ) (h : List PriceRecord)
    (years_ahead : ℕ) (f : Features) : NF :=
  ((predict_with_advanced_time_series E sq shocks h years_ahead f).upside_potential_pct).getD NF.nan

def tsDown (E sq : ℚ → ℚ) (shocks : ℕ → ℚ) (h : List PriceRecord)
    (years_ahead : ℕ) (f : Features) : NF :=
  ((predict_with_advanced_time_series E sq shocks h years_ahead f).downside_risk_pct).getD NF.nan

def tsSm (E sq : ℚ → ℚ) (shocks : ℕ → ℚ) (h : List PriceRecord)
    (years_ahead : ℕ) (f : Features) : NF :=
  ((predict_with_advanced_time_series E sq shocks h years_ahead f).sentiment_multiplier).getD NF.nan

def tsCt (E sq : ℚ → ℚ) (shocks : ℕ → ℚ) (h : List PriceRecord)
    (years_ahead : ℕ) (f : Features) : NF :=
  ((predict_with_advanced_time_series E sq shocks h years_ahead f).current_trend).getD NF.nan

lemma seriesPrices_length (h : List PriceRecord) : (seriesPrices h).length = h.length := by
  simp [seriesPrices]

lemma predict_with_advanced_time_series_of_two_le {E sq : ℚ → ℚ} {shocks : ℕ → ℚ}
    {h : List PriceRecord} {years_ahead : ℕ} {f : Features} (hlen : 2 ≤ h.length) :
    predict_with_advanced_time_series E sq shocks h years_ahead f =
      ts_main E sq shocks h years_ahead f := by
  unfold predict_with_advanced_time_series
  rw [if_neg]
  rw [seriesPrices_length]
  omega

set_option maxRecDepth 4000 in
/-- With at least two observations `predict_hybrid` succeeds and its result is
the record built by `mkHybridResult`. -/
lemma predict_hybrid_eq_ok {E sq : ℚ → ℚ} {shocks : ℕ → ℚ} {h : List PriceRecord}
    {f : Features} {years_ahead : ℕ} (hlen : 2 ≤ h.length) :
    predict_hybrid E sq shocks h f years_ahead =
      Except.ok (mkHybridResult (predict_with_advanced_time_series E sq shocks h years_ahead f)
        (tsUp E sq shocks h years_ahead f) (tsDown E sq shocks h years_ahead f)
        (tsSm E sq shocks h years_ahead f) (tsCt E sq shocks h years_ahead f)
        (predict_with_features f years_ahead) h.length years_ahead f) := by
  unfold predict_hybrid tsUp tsDown tsSm tsCt
  rw [predict_with_advanced_time_series_of_two_le hlen]
  rfl

/-- With fewer than two observations the first read of a missing key raises. -/
lemma predict_hybrid_err {E sq : ℚ → ℚ} {shocks : ℕ → ℚ} {h : List PriceRecord}
    {f : Features} {years_ahead : ℕ} (hlen : h.length < 2) :
    predict_hybrid E sq shocks h f years_ahead =
      Except.error "KeyError: upside_potential_pct" := by
  unfold predict_hybrid predict_with_advanced_time_series
  rw [if_pos]
  · rfl
  · rw [seriesPrices_length]
    omega

lemma investment_score_clamped_bounds (cp rs ps art t30 t90 t1 vol ms : ℚ) :
    1 ≤ investment_score_clamped cp rs ps art t30 t90 t1 vol ms ∧
    investment_score_clamped cp rs ps art t30 t90 t1 vol ms ≤ 10 := by
  unfold investment_score_clamped
  refine ⟨le_max_left _ _, max_le (by norm_num) (min_le_left _ _)⟩

/-! ### Claim theorems -/

/-- C1: for every feature-vector input (any combination of present and absent
fields), `calculate_investment_score` returns a score in [1, 10], and the
returned label is obtained from the clamped (pre-rounding) score by exactly
the fixed thresholds 8.5 / 7.0 / 5.5 / 4.0. -/
theorem c1_investment_score_range_and_label
    (cp rs ps art t30 t90 t1 vol ms : Option ℚ) :
    1 ≤ (calculate_investment_score cp rs ps art t30 t90 t1 vol ms).1 ∧
    (calculate_investment_score cp rs ps art t30 t90 t1 vol ms).1 ≤ 10 ∧
    ∃ c, 1 ≤ c ∧ c ≤ 10 ∧
      (calculate_investment_score cp rs ps art t30 t90 t1 vol ms).1 = round2 c ∧
      (calculate_investment_score cp rs ps art t30 t90 t1 vol ms).2 =
        spec_rating_thresholds c := by
  have hb := investment_score_clamped_bounds (cp.getD 50) (rs.getD 0) (ps.getD 50)
    (art.getD 5) (t30.getD 0) (t90.getD 0) (t1.getD 0) (vol.getD 15) (ms.getD 50)
  refine ⟨?_, ?_, investment_score_clamped (cp.getD 50) (rs.getD 0) (ps.getD 50)
    (art.getD 5) (t30.getD 0) (t90.getD 0) (t1.getD 0) (vol.getD 15) (ms.getD 50),
    hb.1, hb.2, rfl, rfl⟩
  · have h1 := round2_ge_of_int_le (n := 1) (x := investment_score_clamped (cp.getD 50)
      (rs.getD 0) (ps.getD 50) (art.getD 5) (t30.getD 0) (t90.getD 0) (t1.getD 0)
      (vol.getD 15) (ms.getD 50)) (by exact_mod_cast hb.1)
    exact_mod_cast h1
  · have h1 := round2_le_of_le_int (n := 10) (x := investment_score_clamped (cp.getD 50)
      (rs.getD 0) (ps.getD 50) (art.getD 5) (t30.getD 0) (t90.getD 0) (t1.getD 0)
      (vol.getD 15) (ms.getD 50)) (by exact_mod_cast hb.2)
    exact_mod_cast h1

/-- C3 counterexample: on a feature dict whose fields are all None,
`predict_with_features` works from its own falsy-triggered defaults
(current_price=100, rarity=5, volatility=0.2, ...) and returns 111.65 for one
year, while substituting the documented defaults (current_price=50, rarity=0,
volatility=15, ...) as the claim states would return 55.75. -/
theorem c3_counterexample :
    predict_with_features emptyFeatures 1 = 11165 / 100 ∧
    predict_with_features_spec_defaults emptyFeatures 1 = 5575 / 100 ∧
    (11165 / 100 : ℚ) ≠ 5575 / 100 := by
  refine ⟨?_, ?_, by norm_num⟩
  · norm_num [predict_with_features, predict_with_features_total, emptyFeatures, orD,
      min_def]
  · norm_num [predict_with_features_spec_defaults, predict_with_features_total,
      emptyFeatures, min_def]

/-- C3, amended: the investment scorer substitutes the documented defaults
(rarity=0, popularity=50, artist=5, trends=0, volatility=15, sentiment=50,
current_price=50) for None fields only (zero or negative values, including
current_price ≤ 0, are kept); `predict_with_features` instead substitutes
current_price=100, rarity=5, popularity=50, artist=5, trend=0, sentiment=50,
volatility=0.2, and does so whenever the field is None **or zero**. -/
theorem c3_defaults_amended :
    (∀ cp rs ps art t30 t90 t1 vol ms : Option ℚ,
      calculate_investment_score cp rs ps art t30 t90 t1 vol ms =
        calculate_investment_score (some (cp.getD 50)) (some (rs.getD 0))
          (some (ps.getD 50)) (some (art.getD 5)) (some (t30.getD 0))
          (some (t90.getD 0)) (some (t1.getD 0)) (some (vol.getD 15))
          (some (ms.getD 50))) ∧
    (∀ (f : Features) (y : ℕ),
      predict_with_features f y =
        predict_with_features_total (orD f.current_price 100) (orD f.rarity_score 5)
          (orD f.popularity_score 50) (orD f.artist_score 5) (orD f.trend_1y 0)
          (orD f.market_sentiment 50) (orD f.volatility 0.2) y) := by
  constructor
  · intro cp rs ps art t30 t90 t1 vol ms
    cases cp <;> cases rs <;> cases ps <;> cases art <;> cases t30 <;>
      cases t90 <;> cases t1 <;> cases vol <;> cases ms <;> rfl
  · intro f y
    rfl

/-- C6 (code bug): `predict([], default_features(), 3)` does not return a
high-risk wide-band estimate; the insufficient-data early return of
`predict_with_advanced_time_series` lacks the key `upside_potential_pct`
that `predict_hybrid` then reads, so the call raises `KeyError`. -/
theorem c6_empty_history_keyerror :
    predict_hybrid (fun x => x) (fun x => x) (fun _ => 0) [] default_features 3 =
      Except.error "KeyError: upside_potential_pct" :=
  predict_hybrid_err (by norm_num)

/-- C7 (code bug): on a single observation `{price: 100}` with default
features and one year ahead, `predict` does not return a price in [70, 100];
it raises `KeyError` through the same missing-key path as C6. -/
theorem c7_single_point_keyerror :
    predict_hybrid (fun x => x) (fun x => x) (fun _ => 0)
      [PriceRecord.mk (some 100) none none] default_features 1 =
      Except.error "KeyError: upside_potential_pct" :=
  predict_hybrid_err (by norm_num)

/-- C10: every successful `predict_hybrid` result has its top-level
`predicted_price` equal to `scenarios.moderate` (both round the same blended
value to 2 decimals). -/
theorem c10_predicted_eq_moderate (E sq : ℚ → ℚ) (shocks : ℕ → ℚ)
    (h : List PriceRecord) (f : Features) (years_ahead : ℕ) (res : PredictionResult)
    (hok : predict_hybrid E sq shocks h f years_ahead = Except.ok res) :
    res.predicted_price = res.scenarios.moderate := by
  by_cases hl : 2 ≤ h.length
  · rw [predict_hybrid_eq_ok hl] at hok
    injection hok with hres
    rw [← hres]
    rfl
  · rw [predict_hybrid_err (by omega)] at hok
    exact absurd hok (by simp)

def hist2c : List PriceRecord := List.replicate 2 (PriceRecord.mk (some 1) none none)

/-- C2: in every successful `predict_hybrid` result, the scenario prices blend
the time-series percentiles and the feature estimate with weights 0.75/0.25
(feature scaling 0.8/1.2) when the history has at least 12 observations and
0.5/0.5 (scaling 0.85/1.15) otherwise, and the recommendation follows exactly
the decision table over `reward_risk_ratio = upside / max(downside, 1)` and
the risk level. -/
theorem c2_blend_weights_and_recommendation (E sq : ℚ → ℚ) (shocks : ℕ → ℚ)
    (h : List PriceRecord) (f : Features) (years_ahead : ℕ) (res : PredictionResult)
    (hok : predict_hybrid E sq shocks h f years_ahead = Except.ok res) :
    (12 ≤ h.length →
      res.scenarios.moderate =
        (NF.add (NF.mul (predict_with_advanced_time_series E sq shocks h years_ahead f).moderate
          (NF.fin 0.75)) (NF.fin (predict_with_features f years_ahead * 0.25))).round2 ∧
      res.scenarios.conservative =
        (NF.add (NF.mul (predict_with_advanced_time_series E sq shocks h years_ahead f).conservative
          (NF.fin 0.75)) (NF.fin (predict_with_features f years_ahead * 0.8 * 0.25))).round2 ∧
      res.scenarios.aggressive =
        (NF.add (NF.mul (predict_with_advanced_time_series E sq shocks h years_ahead f).aggressive
          (NF.fin 0.75)) (NF.fin (predict_with_features f years_ahead * 1.2 * 0.25))).round2) ∧
    (h.length < 12 →
      res.scenarios.moderate =
        (NF.add (NF.mul (predict_with_advanced_time_series E sq shocks h years_ahead f).moderate
          (NF.fin 0.5)) (NF.fin (predict_with_features f years_ahead * 0.5))).round2 ∧
      res.scenarios.conservative =
        (NF.add (NF.mul (predict_with_advanced_time_series E sq shocks h years_ahead f).conservative
          (NF.fin 0.5)) (NF.fin (predict_with_features f years_ahead * 0.85 * 0.5))).round2 ∧
      res.scenarios.aggressive =
        (NF.add (NF.mul (predict_with_advanced_time_series E sq shocks h years_ahead f).aggressive
          (NF.fin 0.5)) (NF.fin (predict_with_features f years_ahead * 1.15 * 0.5))).round2) ∧
    res.recommendation =
      spec_recommendation
        (NF.div (tsUp E sq shocks h years_ahead f)
          (NF.maxPy (tsDown E sq shocks h years_ahead f) (NF.fin 1)))
        (predict_with_advanced_time_series E sq shocks h years_ahead f).risk_level := by
  by_cases hl : 2 ≤ h.length
  · rw [predict_hybrid_eq_ok hl] at hok
    injection hok with hres
    rw [← hres]
    refine ⟨fun h12 => ?_, fun h12 => ?_, ?_⟩
    · unfold mkHybridResult
      rw [if_pos h12, if_pos h12, if_pos h12]
      exact ⟨rfl, rfl, rfl⟩
    · unfold mkHybridResult
      rw [if_neg (by omega), if_neg (by omega), if_neg (by omega)]
      exact ⟨rfl, rfl, rfl⟩
    · rfl
  · rw [predict_hybrid_err (by omega)] at hok
    exact absurd hok (by simp)

def hist12c : List PriceRecord := List.replicate 12 (PriceRecord.mk (some 1) none none)

/-! ### C4: the volatility estimator -/

lemma mem_zip_tail_fst {l : List ℚ} {p : ℚ × ℚ} (hp : p ∈ l.zip l.tail) :
    p.1 ∈ l.dropLast := by
  induction l generalizing p with
  | nil => simp at hp
  | cons x t ih =>
    cases t with
    | nil => simp at hp
    | cons y t2 =>
      simp only [List.tail_cons, List.zip_cons_cons] at hp
      rcases List.mem_cons.mp hp with h1 | h2
      · subst h1
        simp [List.dropLast_cons₂]
      · have hrec := ih (p := p) (by simpa using h2)
        rw [List.dropLast_cons₂]
        exact List.mem_cons_of_mem _ hrec

lemma simpleReturnsNF_eq (l : List ℚ) (hz : ∀ p ∈ l.dropLast, p ≠ 0) :
    simpleReturnsNF l = (simpleReturnsQ l).map NF.fin := by
  unfold simpleReturnsNF simpleReturnsQ
  rw [List.map_map]
  apply List.map_congr_left
  intro p hp
  have hne := hz p.1 (mem_zip_tail_fst hp)
  simp [NF.div, hne]

lemma anyNan_map_fin (l : List ℚ) : anyNan (l.map NF.fin) = false := by
  induction l with
  | nil => rfl
  | cons a t ih => simpa [anyNan, NF.isNan] using ih

lemma vals_map_fin (l : List ℚ) : vals (l.map NF.fin) = l := by
  induction l with
  | nil => rfl
  | cons a t ih =>
    simp only [vals, List.map_cons, List.filterMap_cons] at *
    rw [ih]

lemma popVar_nonneg (l : List ℚ) : 0 ≤ popVar l := by
  unfold popVar
  apply div_nonneg
  · apply List.sum_nonneg
    intro x hx
    rcases List.mem_map.mp hx with ⟨a, _, rfl⟩
    positivity
  · exact_mod_cast Nat.zero_le _

lemma npStdNF_map_fin (sq : ℚ → ℚ) (l : List ℚ) (hne : l ≠ []) :
    npStdNF sq (l.map NF.fin) = NF.fin (sq (popVar l)) := by
  unfold npStdNF
  rw [anyNan_map_fin]
  have hie : (l.map NF.fin).isEmpty = false := by
    simp [List.isEmpty_iff, hne]
  rw [hie]
  simp only [Bool.or_self, Bool.false_eq_true, if_false]
  rw [vals_map_fin]
  rw [if_neg (not_lt.mpr (popVar_nonneg l))]

/-- C4 counterexample: on the price array [0, 1] the estimator divides by the
previous price 0 and returns NaN, while the guarded estimator the claim
describes would ignore that pair and return a finite value. -/
theorem c4_counterexample :
    calculate_volatility (fun x => x) [0, 1] = NF.nan ∧
    spec_guarded_volatility (fun x => x) [0, 1] = 0 ∧
    NF.nan ≠ NF.fin 0 := by
  refine ⟨?_, ?_, by simp⟩
  · rfl
  · norm_num [spec_guarded_volatility, popVar, meanQ]

/-- C4, amended: the estimator returns exactly 0 for fewer than 2 points, and
computes simple returns over **every** consecutive pair with no positivity
guard; when no previous price is zero it returns `stdev(returns) * sqrt(252)`
(population standard deviation), while a zero previous price makes the result
non-finite (NaN), as the counterexample shows. -/
lemma calculate_volatility_fin (sq : ℚ → ℚ) (prices : List ℚ)
    (hl : 2 ≤ prices.length) (hz : ∀ p ∈ prices.dropLast, p ≠ 0) :
    calculate_volatility sq prices =
      NF.fin (sq (popVar (simpleReturnsQ prices)) * sq 252) := by
  have hrlen : (simpleReturnsQ prices).length = prices.length - 1 := by
    simp only [simpleReturnsQ, List.length_map, List.length_zip, List.length_tail]
    omega
  have hrne : simpleReturnsQ prices ≠ [] := by
    intro hcon
    rw [hcon] at hrlen
    simp at hrlen
    omega
  unfold calculate_volatility
  rw [if_neg (by omega), simpleReturnsNF_eq prices hz, npStdNF_map_fin sq _ hrne]
  rfl

theorem c4_volatility_amended (sq : ℚ → ℚ) (prices : List ℚ) :
    (prices.length < 2 → calculate_volatility sq prices = NF.fin 0) ∧
    (2 ≤ prices.length → (∀ p ∈ prices.dropLast, p ≠ 0) →
      calculate_volatility sq prices =
        NF.fin (sq (popVar (simpleReturnsQ prices)) * sq 252)) := by
  constructor
  · intro hl
    unfold calculate_volatility
    rw [if_pos hl]
  · exact fun hl hz => calculate_volatility_fin sq prices hl hz

/-! ### C8/C5: bounds on the Monte Carlo simulation -/

lemma NF.minPy_fin_fin (a b : ℚ) :
    NF.minPy (NF.fin a) (NF.fin b) = NF.fin (if b < a then b else a) := by
  unfold NF.minPy NF.blt
  by_cases h : b < a <;> simp [h]

lemma mc_drift_fin {cp : ℚ} (trend : ℚ) (hcp : cp ≠ 0) :
    mc_drift cp trend = NF.fin (max (-0.5) (min (trend / cp * 365) 0.3) * (1 / 365)) := by
  unfold mc_drift
  have h1 : NF.div (NF.fin trend) (NF.fin cp) = NF.fin (trend / cp) := by
    simp [NF.div, hcp]
  rw [h1]
  rfl

lemma mc_diffusion_fin (sq : ℚ → ℚ) (v : ℚ) :
    mc_diffusion sq (NF.fin v) = NF.fin (v * sq (1 / 365)) := rfl

lemma stepMul_fin (E : ℚ → ℚ) {drift diffusion : NF} {d v : ℚ}
    (hd : drift = NF.fin d) (hv : diffusion = NF.fin v) (z : ℚ) :
    stepMul E drift diffusion z = NF.fin (E (d + v * z)) := by
  rw [hd, hv]
  rfl

/-- Every entry of a simulated path is finite, positive, and at most the cap,
provided the drift and diffusion are finite, the step multiplier is positive
and `current_price` lies in `(0, cap]`. -/
lemma simEntry_bound (E : ℚ → ℚ) (shocks : ℕ → ℚ) {drift diffusion : NF} {d v : ℚ}
    (hd : drift = NF.fin d) (hv : diffusion = NF.fin v) {cp cap : ℚ}
    (hcp : 0 < cp) (hcap : cp ≤ cap) (days i : ℕ) (hE : ∀ x, 0 < E x) :
    ∀ t, ∃ q, simEntry E shocks drift diffusion cp cap days i t = NF.fin q ∧
      0 < q ∧ q ≤ cap := by
  have hcap0 : 0 < cap := lt_of_lt_of_le hcp hcap
  intro t
  induction t with
  | zero => exact ⟨cp, rfl, hcp, hcap⟩
  | succ t ih =>
    rcases ih with ⟨q, hq, hq0, hqc⟩
    refine ⟨if cap < q * E (d + v * shocks (i * (days - 1) + t)) then cap
      else q * E (d + v * shocks (i * (days - 1) + t)), ?_, ?_, ?_⟩
    · show NF.minPy _ _ = _
      rw [hq, stepMul_fin E hd hv, NF.mul, NF.minPy_fin_fin]
    · by_cases hc : cap < q * E (d + v * shocks (i * (days - 1) + t))
      · rw [if_pos hc]; exact hcap0
      · rw [if_neg hc]; exact mul_pos hq0 (hE _)
    · by_cases hc : cap < q * E (d + v * shocks (i * (days - 1) + t))
      · rw [if_pos hc]
      · rw [if_neg hc]; exact le_of_not_lt hc

lemma one_le_pow_three_halves (y : ℕ) : (1 : ℚ) ≤ (1.5 : ℚ) ^ y := by
  apply one_le_pow₀
  norm_num

lemma cp_le_mc_cap {cp : ℚ} (hcp : 0 ≤ cp) (y : ℕ) : cp ≤ mc_cap cp y := by
  unfold mc_cap
  nlinarith [one_le_pow_three_halves y, hcp]

lemma mc_finals_bound (E sq : ℚ → ℚ) (shocks : ℕ → ℚ) (cp trend vol : ℚ)
    (hcp : 0 < cp) (y n : ℕ) (hE : ∀ x, 0 < E x) :
    ∀ x ∈ mc_finals E sq shocks cp trend (NF.fin vol) y n,
      ∃ q, x = NF.fin q ∧ 0 < q ∧ q ≤ mc_cap cp y := by
  intro x hx
  rcases List.mem_map.mp hx with ⟨i, _, rfl⟩
  exact simEntry_bound E shocks (mc_drift_fin trend (ne_of_gt hcp))
    (mc_diffusion_fin sq vol) hcp (cp_le_mc_cap (le_of_lt hcp) y)
    (mc_days y) i hE (mc_days y - 1)

lemma anyNan_eq_false_of_fin {xs : List NF} (hall : ∀ x ∈ xs, ∃ q, x = NF.fin q) :
    anyNan xs = false := by
  unfold anyNan
  rw [List.any_eq_false]
  intro x hx
  rcases hall x hx with ⟨q, rfl⟩
  simp [NF.isNan]

lemma meanQ_bounds {l : List ℚ} (hne : l ≠ []) {lo hi : ℚ}
    (hall : ∀ x ∈ l, lo ≤ x ∧ x ≤ hi) : lo ≤ meanQ l ∧ meanQ l ≤ hi := by
  have hlen : 0 < l.length := List.length_pos.mpr hne
  have hlenq : 0 < (l.length : ℚ) := by exact_mod_cast hlen
  have hsum_le : l.sum ≤ l.length • hi :=
    List.sum_le_card_nsmul l hi (fun x hx => (hall x hx).2)
  have hsum_ge : l.length • lo ≤ l.sum :=
    List.card_nsmul_le_sum l lo (fun x hx => (hall x hx).1)
  rw [nsmul_eq_mul] at hsum_le hsum_ge
  unfold meanQ
  constructor
  · rw [le_div_iff hlenq]
    linarith
  · rw [div_le_iff hlenq]
    linarith

lemma vals_bounds {xs : List NF} {lo hi : ℚ}
    (hall : ∀ x ∈ xs, ∃ q, x = NF.fin q ∧ lo ≤ q ∧ q ≤ hi) :
    ∀ v ∈ vals xs, lo ≤ v ∧ v ≤ hi := by
  intro v hv
  rcases hall _ (mem_vals hv) with ⟨q, hq, h1, h2⟩
  injection hq with hq
  rw [← hq] at h1 h2
  exact ⟨h1, h2⟩

lemma vals_ne_nil {xs : List NF} (hne : xs ≠ [])
    (hnan : anyNan xs = false) : vals xs ≠ [] := by
  intro hcon
  have := vals_length hnan
  rw [hcon] at this
  simp at this
  exact hne (List.length_eq_zero.mp this.symm)

/-- `np.mean` of a NaN-free nonempty array with uniformly bounded entries. -/
lemma npMeanNF_bounds {xs : List NF} (hne : xs ≠ []) (lo hi : ℚ)
    (hall : ∀ x ∈ xs, ∃ q, x = NF.fin q ∧ lo ≤ q ∧ q ≤ hi) :
    ∃ m, npMeanNF xs = NF.fin m ∧ lo ≤ m ∧ m ≤ hi := by
  have hnan := anyNan_eq_false_of_fin (fun x hx => ⟨_, (hall x hx).choose_spec.1⟩)
  have hie : xs.isEmpty = false := by simp [List.isEmpty_iff, hne]
  refine ⟨meanQ (vals xs), ?_, ?_⟩
  · unfold npMeanNF
    rw [hie, hnan]
    rfl
  · exact meanQ_bounds (vals_ne_nil hne hnan) (vals_bounds hall)

/-- `np.percentile` of a NaN-free nonempty array with uniformly bounded entries. -/
lemma npPercentile_bounds {xs : List NF} (hne : xs ≠ []) {q : ℚ}
    (hq0 : 0 ≤ q) (hq1 : q ≤ 100) (lo hi : ℚ)
    (hall : ∀ x ∈ xs, ∃ v, x = NF.fin v ∧ lo ≤ v ∧ v ≤ hi) :
    ∃ pv, npPercentile xs q = NF.fin pv ∧ lo ≤ pv ∧ pv ≤ hi := by
  have hnan := anyNan_eq_false_of_fin (fun x hx => ⟨_, (hall x hx).choose_spec.1⟩)
  have hie : xs.isEmpty = false := by simp [List.isEmpty_iff, hne]
  have hsne : List.insertionSort (· ≤ ·) (vals xs) ≠ [] := by
    intro hcon
    have hperm := List.perm_insertionSort (· ≤ ·) (vals xs)
    rw [hcon] at hperm
    exact vals_ne_nil hne hnan hperm.symm.eq_nil
  have hsall : ∀ x ∈ List.insertionSort (· ≤ ·) (vals xs), lo ≤ x ∧ x ≤ hi := by
    intro x hx
    exact vals_bounds hall x ((List.perm_insertionSort (· ≤ ·) (vals xs)).mem_iff.mp hx)
  refine ⟨percentileSorted (List.insertionSort (· ≤ ·) (vals xs)) q, ?_, ?_⟩
  · unfold npPercentile
    rw [hie, hnan]
    rfl
  · exact percentileSorted_bounds hsne hq0 hq1 lo hi hsall

/-- `np.percentile` of a NaN-free nonempty array is monotone in the percentile. -/
lemma npPercentile_mono {xs : List NF} (hne : xs ≠ []) (hnan : anyNan xs = false)
    (q1 q2 : ℚ) (h10 : 0 ≤ q1) (h12 : q1 ≤ q2) (h2 : q2 ≤ 100) :
    ∃ p1 p2, npPercentile xs q1 = NF.fin p1 ∧ npPercentile xs q2 = NF.fin p2 ∧
      p1 ≤ p2 := by
  have hie : xs.isEmpty = false := by simp [List.isEmpty_iff, hne]
  have hsne : List.insertionSort (· ≤ ·) (vals xs) ≠ [] := by
    intro hcon
    have hperm := List.perm_insertionSort (· ≤ ·) (vals xs)
    rw [hcon] at hperm
    exact vals_ne_nil hne hnan hperm.symm.eq_nil
  refine ⟨percentileSorted (List.insertionSort (· ≤ ·) (vals xs)) q1,
    percentileSorted (List.insertionSort (· ≤ ·) (vals xs)) q2, ?_, ?_, ?_⟩
  · unfold npPercentile
    rw [hie, hnan]
    rfl
  · unfold npPercentile
    rw [hie, hnan]
    rfl
  · exact percentileSorted_mono (List.sorted_insertionSort (· ≤ ·) (vals xs))
      hsne h10 h12 h2

/-- `<=` as a Python/IEEE comparison: false whenever either side is NaN, so
`NF.leB x y = true` asserts both finiteness and order. -/
def NF.leB : NF → NF → Bool
  | NF.fin a, NF.fin b => decide (a ≤ b)
  | _, _ => false

lemma NF.leB_of_fin_le {x : NF} {a b : ℚ} (hx : x = NF.fin a) (hab : a ≤ b) :
    NF.leB x (NF.fin b) = true := by
  rw [hx]
  simpa [NF.leB] using hab

/-- C8: with a positive current price, every simulated price at every step of
every path is finite and at most `current_price * 1.5 ^ years_ahead`, and so
are the terminal mean and every reported percentile — runaway exponential
growth is structurally impossible. -/
theorem c8_safety_cap (E sq : ℚ → ℚ) (shocks : ℕ → ℚ)
    (current_price trend volatility : ℚ) (years_ahead n_simulations : ℕ)
    (hcp : 0 < current_price) (hy : 1 ≤ years_ahead) (hn : 0 < n_simulations)
    (hE : ∀ x, 0 < E x) :
    (∀ i t, NF.leB (simEntry E shocks (mc_drift current_price trend)
        (mc_diffusion sq (NF.fin volatility)) current_price
        (mc_cap current_price years_ahead) (mc_days years_ahead) i t)
      (NF.fin (mc_cap current_price years_ahead)) = true) ∧
    NF.leB (monte_carlo_simulation E sq shocks current_price trend (NF.fin volatility)
        years_ahead n_simulations).1
      (NF.fin (mc_cap current_price years_ahead)) = true ∧
    (∀ q, 0 ≤ q → q ≤ 100 →
      NF.leB (npPercentile (mc_finals E sq shocks current_price trend (NF.fin volatility)
          years_ahead n_simulations) q)
        (NF.fin (mc_cap current_price years_ahead)) = true) := by
  have hfin := mc_finals_bound E sq shocks current_price trend volatility hcp
    years_ahead n_simulations hE
  have hfne : mc_finals E sq shocks current_price trend (NF.fin volatility)
      years_ahead n_simulations ≠ [] := by
    intro hcon
    have hlen := congrArg List.length hcon
    simp [mc_finals] at hlen
    omega
  refine ⟨?_, ?_, ?_⟩
  · intro i t
    rcases simEntry_bound E shocks (mc_drift_fin trend (ne_of_gt hcp))
      (mc_diffusion_fin sq volatility) hcp
      (cp_le_mc_cap (le_of_lt hcp) years_ahead) (mc_days years_ahead) i hE t with
      ⟨q, hq, _, hqc⟩
    exact NF.leB_of_fin_le hq hqc
  · rcases npMeanNF_bounds hfne 0 (mc_cap current_price years_ahead)
      (fun x hx => by
        rcases hfin x hx with ⟨q, hq, h0, hc⟩
        exact ⟨q, hq, le_of_lt h0, hc⟩) with ⟨m, hm, _, hmc⟩
    exact NF.leB_of_fin_le hm hmc
  · intro q hq0 hq1
    rcases npPercentile_bounds hfne hq0 hq1 0 (mc_cap current_price years_ahead)
      (fun x hx => by
        rcases hfin x hx with ⟨v, hv, h0, hc⟩
        exact ⟨v, hv, le_of_lt h0, hc⟩) with ⟨pv, hpv, _, hpc⟩
    exact NF.leB_of_fin_le hpv hpc

theorem c8_witness :
    ((0 : ℚ) < 1) ∧ (1 ≤ 1) ∧ (0 < 1) ∧
    NF.leB (npPercentile (mc_finals (fun _ => 1) (fun x => x) (fun _ => 0) 1 0
        (NF.fin 0) 1 1) 10) (NF.fin (mc_cap 1 1)) = true :=
  ⟨by norm_num, le_refl 1, by norm_num,
    (c8_safety_cap (fun _ => 1) (fun x => x) (fun _ => 0) 1 0 0 1 1 (by norm_num)
      (le_refl 1) (by norm_num) (fun _ => by norm_num)).2.2 10 (by norm_num)
      (by norm_num)⟩

theorem c4_witness :
    (2 ≤ ([1, 2] : List ℚ).length) ∧ (∀ p ∈ ([1, 2] : List ℚ).dropLast, p ≠ 0) ∧
    calculate_volatility (fun x => x) [1, 2] =
      NF.fin (popVar (simpleReturnsQ [1, 2]) * 252) := by
  refine ⟨by norm_num, ?_, (c4_volatility_amended (fun x => x) [1, 2]).2
    (by norm_num) ?_⟩ <;>
  · intro p hp
    simp only [List.dropLast, List.mem_cons, List.not_mem_nil, or_false] at hp
    rw [hp]
    norm_num

theorem c2_witness :
    ((predict_hybrid (fun x => x) (fun x => x) (fun _ => 0) hist12c default_features
        1).toOption.map (fun r => r.scenarios.moderate)) =
    some ((NF.add (NF.mul (predict_with_advanced_time_series (fun x => x) (fun x => x)
        (fun _ => 0) hist12c 1 default_features).moderate (NF.fin 0.75))
      (NF.fin (predict_with_features default_features 1 * 0.25))).round2) := by
  have hok := @predict_hybrid_eq_ok (fun x => x) (fun x => x) (fun _ => 0) hist12c
    default_features 1 (by norm_num [hist12c])
  have hmain := (c2_blend_weights_and_recommendation (fun x => x) (fun x => x)
    (fun _ => 0) hist12c default_features 1 _ hok).1 (by norm_num [hist12c])
  rw [hok]
  simp only [Except.toOption, Option.map]
  rw [hmain.1]

theorem c10_witness :
    ((predict_hybrid (fun x => x) (fun x => x) (fun _ => 0) hist2c default_features 1).toOption.map
        (fun r => r.predicted_price)) =
    ((predict_hybrid (fun x => x) (fun x => x) (fun _ => 0) hist2c default_features 1).toOption.map
        (fun r => r.scenarios.moderate)) := by
  have hok := @predict_hybrid_eq_ok (fun x => x) (fun x => x) (fun _ => 0) hist2c
    default_features 1 (by norm_num [hist2c])
  have hfield := c10_predicted_eq_moderate (fun x => x) (fun x => x) (fun _ => 0)
    hist2c default_features 1 _ hok
  rw [hok]
  simp only [Except.toOption, Option.map]
  rw [hfield]

/-! ### C5: confidence-bound ordering and sign -/

lemma sum_zipWith_mul_nonneg : ∀ (p v : List ℚ), (∀ x ∈ p, 0 ≤ x) → (∀ x ∈ v, 0 ≤ x) →
    0 ≤ (p.zipWith (· * ·) v).sum
  | [], _, _, _ => by simp
  | _ :: _, [], _, _ => by simp
  | a :: p, b :: v, hp, hv => by
    simp only [List.zipWith_cons_cons, List.sum_cons]
    have h1 : 0 ≤ a * b :=
      mul_nonneg (hp a (List.mem_cons_self _ _)) (hv b (List.mem_cons_self _ _))
    have h2 := sum_zipWith_mul_nonneg p v
      (fun x hx => hp x (List.mem_cons_of_mem _ hx))
      (fun x hx => hv x (List.mem_cons_of_mem _ hx))
    linarith

lemma sum_zipWith_mul_pos : ∀ (p v : List ℚ), p ≠ [] → v ≠ [] →
    (∀ x ∈ p, 0 < x) → (∀ x ∈ v, 0 < x) → 0 < (p.zipWith (· * ·) v).sum
  | [], _, hp, _, _, _ => absurd rfl hp
  | _ :: _, [], _, hv, _, _ => absurd rfl hv
  | a :: p, b :: v, _, _, hp, hv => by
    simp only [List.zipWith_cons_cons, List.sum_cons]
    have h1 : 0 < a * b :=
      mul_pos (hp a (List.mem_cons_self _ _)) (hv b (List.mem_cons_self _ _))
    have h2 := sum_zipWith_mul_nonneg p v
      (fun x hx => le_of_lt (hp x (List.mem_cons_of_mem _ hx)))
      (fun x hx => le_of_lt (hv x (List.mem_cons_of_mem _ hx)))
    linarith

lemma seriesVolumes_length (h : List PriceRecord) :
    (seriesVolumes h).length = h.length := by
  simp [seriesVolumes]

/-- With at least one record and positive extracted prices and volumes, the
volume-weighted current price is positive. -/
lemma ts_current_price_pos (h : List PriceRecord) (hlen : 1 ≤ h.length)
    (hpos : ∀ r ∈ h, 0 < recPrice r ∧ 0 < recVolume r) :
    0 < ts_current_price h := by
  have hppos : ∀ p ∈ seriesPrices h, 0 < p := by
    intro p hp
    rcases List.mem_map.mp hp with ⟨r, hr, rfl⟩
    exact (hpos r hr).1
  have hvpos : ∀ v ∈ seriesVolumes h, 0 < v := by
    intro v hv
    rcases List.mem_map.mp hv with ⟨r, hr, rfl⟩
    exact (hpos r hr).2
  unfold ts_current_price calculate_volume_weighted_price
  have hplen : ((seriesPrices h).drop
      ((seriesPrices h).length - min 30 (seriesPrices h).length)).length
      = min 30 h.length := by
    rw [List.length_drop, seriesPrices_length]
    omega
  have hvlen : ((seriesVolumes h).drop
      ((seriesVolumes h).length - min 30 (seriesVolumes h).length)).length
      = min 30 h.length := by
    rw [List.length_drop, seriesVolumes_length]
    omega
  have hpne : (seriesPrices h).drop
      ((seriesPrices h).length - min 30 (seriesPrices h).length) ≠ [] := by
    intro hcon
    rw [hcon] at hplen
    simp at hplen
    omega
  have hvne : (seriesVolumes h).drop
      ((seriesVolumes h).length - min 30 (seriesVolumes h).length) ≠ [] := by
    intro hcon
    rw [hcon] at hvlen
    simp at hvlen
    omega
  have hpdrop : ∀ p ∈ (seriesPrices h).drop
      ((seriesPrices h).length - min 30 (seriesPrices h).length), 0 < p :=
    fun p hp => hppos p (List.mem_of_mem_drop hp)
  have hvdrop : ∀ v ∈ (seriesVolumes h).drop
      ((seriesVolumes h).length - min 30 (seriesVolumes h).length), 0 < v :=
    fun v hv => hvpos v (List.mem_of_mem_drop hv)
  have hvsum := List.sum_pos _ hvdrop hvne
  rw [if_neg]
  · exact div_pos (sum_zipWith_mul_pos _ _ hpne hvne hpdrop hvdrop) hvsum
  · intro hcon
    rcases Bool.or_eq_true_iff.mp hcon with hc | hc
    · rw [List.isEmpty_iff] at hc
      exact hvne hc
    · rw [decide_eq_true_iff] at hc
      linarith

set_option maxRecDepth 4000 in
lemma ts_main_confidence_lower (E sq : ℚ → ℚ) (shocks : ℕ → ℚ)
    (h : List PriceRecord) (years_ahead : ℕ) (f : Features) :
    (ts_main E sq shocks h years_ahead f).confidence_lower =
      npPercentile (mc_finals E sq shocks (ts_current_price h) (ts_adjusted_trend h f)
        (calculate_volatility sq (seriesPrices h)) years_ahead 1000) 10 := rfl

set_option maxRecDepth 4000 in
lemma ts_main_confidence_upper (E sq : ℚ → ℚ) (shocks : ℕ → ℚ)
    (h : List PriceRecord) (years_ahead : ℕ) (f : Features) :
    (ts_main E sq shocks h years_ahead f).confidence_upper =
      npPercentile (mc_finals E sq shocks (ts_current_price h) (ts_adjusted_trend h f)
        (calculate_volatility sq (seriesPrices h)) years_ahead 1000) 90 := rfl

lemma stepMul_nan_of_diffusion_nan (E : ℚ → ℚ) (drift : NF) (z : ℚ) :
    stepMul E drift NF.nan z = NF.nan := by
  unfold stepMul
  cases drift <;> rfl

lemma simEntry_nan (E : ℚ → ℚ) (shocks : ℕ → ℚ) (drift : NF) (cp cap : ℚ)
    (days i : ℕ) : ∀ t, 1 ≤ t →
    simEntry E shocks drift NF.nan cp cap days i t = NF.nan := by
  intro t ht
  cases t with
  | zero => omega
  | succ t =>
    show NF.minPy (NF.mul _ (stepMul E drift NF.nan _)) (NF.fin cap) = NF.nan
    rw [stepMul_nan_of_diffusion_nan]
    have hmul : NF.mul (simEntry E shocks drift NF.nan cp cap days i t) NF.nan
        = NF.nan := by
      cases simEntry E shocks drift NF.nan cp cap days i t <;> rfl
    rw [hmul]
    rfl

lemma npPercentile_nan {xs : List NF} (hnan : anyNan xs = true) (q : ℚ) :
    npPercentile xs q = NF.nan := by
  unfold npPercentile
  rw [hnan]
  simp

lemma mc_finals_ne_nil (E sq : ℚ → ℚ) (shocks : ℕ → ℚ) (cp trend : ℚ) (vol : NF)
    (y : ℕ) {n : ℕ} (hn : 0 < n) :
    mc_finals E sq shocks cp trend vol y n ≠ [] := by
  intro hcon
  have hlen := congrArg List.length hcon
  simp [mc_finals] at hlen
  omega

/-- A NaN volatility (e.g. from a zero price in the history) poisons both
confidence bounds of the main time-series path. -/
lemma ts_main_bounds_nan (E sq : ℚ → ℚ) (shocks : ℕ → ℚ) (h : List PriceRecord)
    (years_ahead : ℕ) (f : Features) (hy : 1 ≤ years_ahead)
    (hvol : calculate_volatility sq (seriesPrices h) = NF.nan) :
    (ts_main E sq shocks h years_ahead f).confidence_lower = NF.nan ∧
    (ts_main E sq shocks h years_ahead f).confidence_upper = NF.nan := by
  have hdiff : mc_diffusion sq (calculate_volatility sq (seriesPrices h)) = NF.nan := by
    rw [hvol]
    rfl
  have hnan : anyNan (mc_finals E sq shocks (ts_current_price h) (ts_adjusted_trend h f)
      (calculate_volatility sq (seriesPrices h)) years_ahead 1000) = true := by
    unfold anyNan mc_finals
    rw [List.any_eq_true]
    refine ⟨_, List.mem_map.mpr ⟨0, List.mem_range.mpr (by norm_num), rfl⟩, ?_⟩
    rw [hdiff, simEntry_nan]
    · rfl
    · unfold mc_days
      omega
  exact ⟨by rw [ts_main_confidence_lower, npPercentile_nan hnan],
    by rw [ts_main_confidence_upper, npPercentile_nan hnan]⟩

def hist0x100 : List PriceRecord :=
  [PriceRecord.mk (some 0) none none, PriceRecord.mk (some 100) none none]

lemma mkHybridResult_confidence_lower (ts : TSResult) (up down sm ct : NF)
    (fp : ℚ) (len y : ℕ) (f : Features) :
    (mkHybridResult ts up down sm ct fp len y f).confidence_lower =
      ts.confidence_lower.round2 := rfl

lemma mkHybridResult_confidence_upper (ts : TSResult) (up down sm ct : NF)
    (fp : ℚ) (len y : ℕ) (f : Features) :
    (mkHybridResult ts up down sm ct fp len y f).confidence_upper =
      ts.confidence_upper.round2 := rfl

/-- C5 counterexample: on an empty history the call raises `KeyError` instead
of returning bounds at all, and on the non-negative history [0, 100] the
division by the zero price makes both confidence bounds NaN, so
`confidence_upper >= confidence_lower` fails. -/
theorem c5_counterexample :
    predict_hybrid (fun x => x) (fun x => x) (fun _ => 0) [] default_features 1 =
      Except.error "KeyError: upside_potential_pct" ∧
    ((predict_hybrid (fun x => x) (fun x => x) (fun _ => 0) hist0x100
        default_features 1).toOption.map (fun r => r.confidence_lower)) =
      some NF.nan ∧
    ((predict_hybrid (fun x => x) (fun x => x) (fun _ => 0) hist0x100
        default_features 1).toOption.map
      (fun r => NF.leB r.confidence_lower r.confidence_upper)) = some false := by
  have hvol : calculate_volatility (fun x => x) (seriesPrices hist0x100) = NF.nan := by
    rfl
  have hts := @predict_with_advanced_time_series_of_two_le (fun x => x) (fun x => x)
    (fun _ => 0) hist0x100 1 default_features (by norm_num [hist0x100])
  have hb := ts_main_bounds_nan (fun x => x) (fun x => x) (fun _ => 0) hist0x100 1
    default_features (by norm_num) hvol
  have hlow : (mkHybridResult (predict_with_advanced_time_series (fun x => x) (fun x => x)
      (fun _ => 0) hist0x100 1 default_features)
      (tsUp (fun x => x) (fun x => x) (fun _ => 0) hist0x100 1 default_features)
      (tsDown (fun x => x) (fun x => x) (fun _ => 0) hist0x100 1 default_features)
      (tsSm (fun x => x) (fun x => x) (fun _ => 0) hist0x100 1 default_features)
      (tsCt (fun x => x) (fun x => x) (fun _ => 0) hist0x100 1 default_features)
      (predict_with_features default_features 1) hist0x100.length 1
      default_features).confidence_lower = NF.nan := by
    rw [mkHybridResult_confidence_lower, hts, hb.1]
    rfl
  have hupp : (mkHybridResult (predict_with_advanced_time_series (fun x => x) (fun x => x)
      (fun _ => 0) hist0x100 1 default_features)
      (tsUp (fun x => x) (fun x => x) (fun _ => 0) hist0x100 1 default_features)
      (tsDown (fun x => x) (fun x => x) (fun _ => 0) hist0x100 1 default_features)
      (tsSm (fun x => x) (fun x => x) (fun _ => 0) hist0x100 1 default_features)
      (tsCt (fun x => x) (fun x => x) (fun _ => 0) hist0x100 1 default_features)
      (predict_with_features default_features 1) hist0x100.length 1
      default_features).confidence_upper = NF.nan := by
    rw [mkHybridResult_confidence_upper, hts, hb.2]
    rfl
  refine ⟨predict_hybrid_err (by norm_num), ?_, ?_⟩
  · rw [predict_hybrid_eq_ok (by norm_num [hist0x100])]
    simp only [Except.toOption, Option.map]
    rw [hlow]
  · rw [predict_hybrid_eq_ok (by norm_num [hist0x100])]
    simp only [Except.toOption, Option.map]
    rw [hlow, hupp]
    rfl

/-- C5, amended: with at least two observations, positive extracted prices
and volumes, and `years_ahead >= 1`, `predict_hybrid` succeeds and returns
finite confidence bounds with `0 <= confidence_lower <= confidence_upper`;
with fewer than two observations it raises `KeyError`, and a zero price in
the history can poison both bounds to NaN (see the counterexample). -/
theorem c5_bounds_amended (E sq : ℚ → ℚ) (shocks : ℕ → ℚ) (h : List PriceRecord)
    (f : Features) (years_ahead : ℕ) (hlen : 2 ≤ h.length)
    (hpos : ∀ r ∈ h, 0 < recPrice r ∧ 0 < recVolume r)
    (hy : 1 ≤ years_ahead) (hE : ∀ x, 0 < E x) :
    ((predict_hybrid E sq shocks h f years_ahead).toOption.map
      (fun r => NF.leB (NF.fin 0) r.confidence_lower)) = some true ∧
    ((predict_hybrid E sq shocks h f years_ahead).toOption.map
      (fun r => NF.leB r.confidence_lower r.confidence_upper)) = some true := by
  have hppos : ∀ p ∈ seriesPrices h, 0 < p := by
    intro p hp
    rcases List.mem_map.mp hp with ⟨r, hr, rfl⟩
    exact (hpos r hr).1
  have hvolfin := calculate_volatility_fin sq (seriesPrices h)
    (by rw [seriesPrices_length]; omega)
    (fun p hp => ne_of_gt (hppos p (List.dropLast_subset _ hp)))
  have hcp := ts_current_price_pos h (by omega) hpos
  have hfinbound := mc_finals_bound E sq shocks (ts_current_price h)
    (ts_adjusted_trend h f) (sq (popVar (simpleReturnsQ (seriesPrices h))) * sq 252)
    hcp years_ahead 1000 hE
  have hfne := mc_finals_ne_nil E sq shocks (ts_current_price h)
    (ts_adjusted_trend h f)
    (NF.fin (sq (popVar (simpleReturnsQ (seriesPrices h))) * sq 252)) years_ahead
    (n := 1000) (by norm_num)
  have hnanf := anyNan_eq_false_of_fin
    (fun x hx => ⟨_, (hfinbound x hx).choose_spec.1⟩)
  rcases npPercentile_mono hfne hnanf 10 90 (by norm_num)
    (by norm_num) (by norm_num) with ⟨p1, p2, he1, he2, hp12⟩
  rcases npPercentile_bounds hfne (q := 10) (by norm_num) (by norm_num)
    0 (mc_cap (ts_current_price h) years_ahead)
    (fun x hx => by
      rcases hfinbound x hx with ⟨v, hv, h0, hc⟩
      exact ⟨v, hv, le_of_lt h0, hc⟩) with ⟨pv, hpv, hpv0, _⟩
  have hp1v : p1 = pv := by
    have := he1.symm.trans hpv
    injection this
  have hp10 : 0 ≤ p1 := hp1v ▸ hpv0
  have hlow : (predict_with_advanced_time_series E sq shocks h years_ahead
      f).confidence_lower = NF.fin p1 := by
    rw [predict_with_advanced_time_series_of_two_le hlen, ts_main_confidence_lower,
      hvolfin, he1]
  have hupp : (predict_with_advanced_time_series E sq shocks h years_ahead
      f).confidence_upper = NF.fin p2 := by
    rw [predict_with_advanced_time_series_of_two_le hlen, ts_main_confidence_upper,
      hvolfin, he2]
  rw [predict_hybrid_eq_ok hlen]
  simp only [Except.toOption, Option.map]
  constructor
  · refine congrArg some ?_
    rw [mkHybridResult_confidence_lower, hlow]
    show NF.leB (NF.fin 0) (NF.fin (round2 p1)) = true
    simp [NF.leB, round2_nonneg hp10]
  · refine congrArg some ?_
    rw [mkHybridResult_confidence_lower, mkHybridResult_confidence_upper, hlow, hupp]
    show NF.leB (NF.fin (round2 p1)) (NF.fin (round2 p2)) = true
    simp [NF.leB, round2_mono hp12]

theorem c5_witness :
    (2 ≤ hist2c.length) ∧ (1 ≤ 1) ∧
    ((predict_hybrid (fun _ => 1) (fun x => x) (fun _ => 0) hist2c
        default_features 1).toOption.map
      (fun r => NF.leB r.confidence_lower r.confidence_upper)) = some true := by
  have hpos : ∀ r ∈ hist2c, 0 < recPrice r ∧ 0 < recVolume r := by
    intro r hr
    simp only [hist2c, List.mem_replicate] at hr
    rw [hr.2]
    constructor <;> norm_num [recPrice, recVolume]
  exact ⟨by norm_num [hist2c], le_refl 1,
    (c5_bounds_amended (fun _ => 1) (fun x => x) (fun _ => 0) hist2c default_features 1
      (by norm_num [hist2c]) hpos (le_refl 1) (fun _ => by norm_num)).2⟩

/-! ### C9: the shared global shock stream -/

lemma simEntry_congr (E : ℚ → ℚ) {s1 s2 : ℕ → ℚ} (drift diffusion : NF)
    (cp cap : ℚ) (days i : ℕ)
    (hagree : ∀ t, t < days - 1 →
      s1 (i * (days - 1) + t) = s2 (i * (days - 1) + t)) :
    ∀ t, t ≤ days - 1 →
      simEntry E s1 drift diffusion cp cap days i t =
      simEntry E s2 drift diffusion cp cap days i t := by
  intro t
  induction t with
  | zero => intro _; rfl
  | succ t ih =>
    intro hts
    show NF.minPy _ _ = NF.minPy _ _
    rw [ih (by omega), hagree t (by omega)]

lemma mc_finals_congr (E sq : ℚ → ℚ) {s1 s2 : ℕ → ℚ} (cp trend : ℚ) (vol : NF)
    (y : ℕ) (hagree : ∀ k, k < 1000 * (mc_days y - 1) → s1 k = s2 k) :
    mc_finals E sq s1 cp trend vol y 1000 =
    mc_finals E sq s2 cp trend vol y 1000 := by
  unfold mc_finals
  apply List.map_congr_left
  intro i hi
  have hilt : i < 1000 := List.mem_range.mp hi
  apply simEntry_congr E _ _ _ _ _ _ _ (mc_days y - 1) (le_refl _)
  intro t ht
  apply hagree
  calc i * (mc_days y - 1) + t < i * (mc_days y - 1) + (mc_days y - 1) := by omega
    _ = (i + 1) * (mc_days y - 1) := by ring
    _ ≤ 1000 * (mc_days y - 1) := Nat.mul_le_mul_right _ (by omega)

set_option maxRecDepth 16000 in
lemma ts_main_congr (E sq : ℚ → ℚ) {s1 s2 : ℕ → ℚ} (h : List PriceRecord)
    (y : ℕ) (f : Features)
    (hagree : ∀ k, k < 1000 * (mc_days y - 1) → s1 k = s2 k) :
    ts_main E sq s1 h y f = ts_main E sq s2 h y f := by
  have hf := mc_finals_congr E sq (ts_current_price h) (ts_adjusted_trend h f)
    (calculate_volatility sq (seriesPrices h)) y hagree
  simp only [ts_main, monte_carlo_simulation, hf]

lemma predict_with_advanced_time_series_congr (E sq : ℚ → ℚ) {s1 s2 : ℕ → ℚ}
    (h : List PriceRecord) (y : ℕ) (f : Features)
    (hagree : ∀ k, k < 1000 * (mc_days y - 1) → s1 k = s2 k) :
    predict_with_advanced_time_series E sq s1 h y f =
    predict_with_advanced_time_series E sq s2 h y f := by
  unfold predict_with_advanced_time_series
  by_cases hc : (seriesPrices h).length < 2
  · rw [if_pos hc, if_pos hc]
  · rw [if_neg hc, if_neg hc]
    exact ts_main_congr E sq h y f hagree

/-- C9, amended: the simulation reads the shared global stream at the indices
`0 .. n_simulations*(days-1) - 1`, so the prediction is a function of that
consumed segment alone — re-seeding the global generator identically before a
call reproduces the output exactly; two successive calls without re-seeding
read disjoint segments and can differ (see the counterexample). -/
theorem c9_global_stream_amended (E sq : ℚ → ℚ) (s1 s2 : ℕ → ℚ)
    (h : List PriceRecord) (f : Features) (years_ahead : ℕ)
    (hagree : ∀ k, k < shocksConsumed years_ahead → s1 k = s2 k) :
    predict_hybrid E sq s1 h f years_ahead =
    predict_hybrid E sq s2 h f years_ahead := by
  have hts := predict_with_advanced_time_series_congr E sq h years_ahead f hagree
  simp only [predict_hybrid]
  rw [hts]

theorem c9_witness :
    predict_hybrid (fun _ => 1) (fun x => x) (fun _ => 0) hist2c default_features 1 =
      predict_hybrid (fun _ => 1) (fun x => x)
        (fun k => if k < shocksConsumed 1 then (0 : ℚ) else 99) hist2c
        default_features 1 :=
  c9_global_stream_amended (fun _ => 1) (fun x => x) (fun _ => 0)
    (fun k => if k < shocksConsumed 1 then (0 : ℚ) else 99) hist2c default_features 1
    (fun k hk => by
      show (0 : ℚ) = if k < shocksConsumed 1 then (0 : ℚ) else 99
      rw [if_pos hk])

lemma pow_mul_le_cap {m cp cap : ℚ} (hm0 : 0 < m) (hm1 : m ≤ 1) (hcp : 0 < cp)
    (hcap : cp ≤ cap) (t : ℕ) : cp * m ^ t ≤ cap := by
  have h1 : m ^ t ≤ 1 := pow_le_one₀ (le_of_lt hm0) hm1
  nlinarith

/-- A path whose step multipliers are the constant `m ∈ (0, 1]` is exactly
`cp * m ^ t` (the safety cap never binds). -/
lemma simEntry_const (E : ℚ → ℚ) (shocks : ℕ → ℚ) (drift diffusion : NF)
    {cp cap m : ℚ} (days i : ℕ)
    (hstep : ∀ t, t < days - 1 →
      stepMul E drift diffusion (shocks (i * (days - 1) + t)) = NF.fin m)
    (hm0 : 0 < m) (hm1 : m ≤ 1) (hcp : 0 < cp) (hcap : cp ≤ cap) :
    ∀ t, t ≤ days - 1 →
      simEntry E shocks drift diffusion cp cap days i t = NF.fin (cp * m ^ t) := by
  intro t
  induction t with
  | zero =>
    intro _
    rw [pow_zero, mul_one]
    rfl
  | succ t ih =>
    intro hts
    show NF.minPy (NF.mul _ _) (NF.fin cap) = _
    rw [ih (by omega), hstep t (by omega)]
    show NF.minPy (NF.fin (cp * m ^ t * m)) (NF.fin cap) = _
    rw [NF.minPy_fin_fin]
    have hle : cp * m ^ t * m ≤ cap := by
      have := pow_mul_le_cap hm0 hm1 hcp hcap (t + 1)
      rw [pow_succ] at this
      linarith [this]
    rw [if_neg (not_lt.mpr hle)]
    rw [pow_succ]
    ring_nf

lemma npPercentile_const {xs : List NF} (hne : xs ≠ []) {q c : ℚ}
    (hq0 : 0 ≤ q) (hq1 : q ≤ 100) (hall : ∀ x ∈ xs, x = NF.fin c) :
    npPercentile xs q = NF.fin c := by
  rcases npPercentile_bounds hne hq0 hq1 c c
    (fun x hx => ⟨c, hall x hx, le_refl c, le_refl c⟩) with ⟨pv, hpv, h1, h2⟩
  rw [hpv]
  congr 1
  linarith

def c9hist : List PriceRecord :=
  [PriceRecord.mk (some 100) none none, PriceRecord.mk (some 100) none none,
   PriceRecord.mk (some 110) none none]

def c9volval : ℚ := popVar (simpleReturnsQ (seriesPrices c9hist)) * 252

def c9diff : ℚ := c9volval * (1 / 365)

def c9driftval : ℚ :=
  max (-0.5) (min (ts_adjusted_trend c9hist default_features
    / ts_current_price c9hist * 365) 0.3) * (1 / 365)

/-- The abstract `exp` chosen for the counterexample: 1 at the drift-only
argument (shock 0), one half anywhere else. -/
def c9E : ℚ → ℚ := fun x => if x = c9driftval then 1 else 1 / 2

/-- A fixed seed: the global stream is 0 on the segment the first call
consumes and 1 afterwards. -/
def c9shocks : ℕ → ℚ := fun k => if k < shocksConsumed 1 then 0 else 1

lemma c9cp_val : ts_current_price c9hist = 310 / 3 := by
  norm_num [ts_current_price, calculate_volume_weighted_price, seriesPrices,
    seriesVolumes, c9hist, recPrice, recVolume, meanQ]

lemma c9cp_pos : 0 < ts_current_price c9hist := by
  rw [c9cp_val]
  norm_num

lemma c9vol_val : c9volval = 63 / 100 := by
  norm_num [c9volval, simpleReturnsQ, seriesPrices, c9hist, recPrice, popVar, meanQ]

lemma c9diff_ne : c9diff ≠ 0 := by
  unfold c9diff
  rw [c9vol_val]
  norm_num

lemma c9drift_eq :
    mc_drift (ts_current_price c9hist) (ts_adjusted_trend c9hist default_features) =
      NF.fin c9driftval :=
  mc_drift_fin _ (ne_of_gt c9cp_pos)

lemma c9vola_eq :
    calculate_volatility (fun x => x) (seriesPrices c9hist) = NF.fin c9volval := by
  have hz : ∀ p ∈ (seriesPrices c9hist).dropLast, p ≠ 0 := by
    intro p hp
    simp only [seriesPrices, c9hist, recPrice, List.map_cons, List.map_nil,
      List.dropLast, List.mem_cons, List.not_mem_nil, or_false] at hp
    rcases hp with hp | hp <;> (rw [hp]; norm_num)
  exact calculate_volatility_fin (fun x => x) (seriesPrices c9hist)
    (by norm_num [seriesPrices, c9hist]) hz

lemma c9diffusion_eq :
    mc_diffusion (fun x => x) (calculate_volatility (fun x => x) (seriesPrices c9hist)) =
      NF.fin c9diff := by
  rw [c9vola_eq]
  rfl

lemma c9step_at_zero :
    stepMul c9E (NF.fin c9driftval) (NF.fin c9diff) 0 = NF.fin 1 := by
  rw [stepMul_fin c9E rfl rfl]
  unfold c9E
  rw [mul_zero, add_zero, if_pos rfl]

lemma c9step_at_one :
    stepMul c9E (NF.fin c9driftval) (NF.fin c9diff) 1 = NF.fin (1 / 2) := by
  rw [stepMul_fin c9E rfl rfl, mul_one]
  unfold c9E
  rw [if_neg]
  intro hcon
  have hd : c9diff = 0 := by linarith
  exact c9diff_ne hd

/-- With a single call whose step multipliers are all the constant `m`, the
reported lower confidence bound is `round2 (current_price * m ^ (days-1))`. -/
lemma c9_call_lower (s : ℕ → ℚ) (m : ℚ) (hm0 : 0 < m) (hm1 : m ≤ 1)
    (hs : ∀ i t, i < 1000 → t < mc_days 1 - 1 →
      stepMul c9E
        (mc_drift (ts_current_price c9hist) (ts_adjusted_trend c9hist default_features))
        (mc_diffusion (fun x => x) (calculate_volatility (fun x => x) (seriesPrices c9hist)))
        (s (i * (mc_days 1 - 1) + t)) = NF.fin m) :
    (predict_hybrid c9E (fun x => x) s c9hist default_features 1).toOption.map
      (fun r => r.confidence_lower) =
    some (NF.fin (round2 (ts_current_price c9hist * m ^ (mc_days 1 - 1)))) := by
  rw [predict_hybrid_eq_ok (by norm_num [c9hist])]
  simp only [Except.toOption, Option.map]
  refine congrArg some ?_
  rw [mkHybridResult_confidence_lower,
    predict_with_advanced_time_series_of_two_le (by norm_num [c9hist]),
    ts_main_confidence_lower]
  have hconst : npPercentile (mc_finals c9E (fun x => x) s (ts_current_price c9hist)
      (ts_adjusted_trend c9hist default_features)
      (calculate_volatility (fun x => x) (seriesPrices c9hist)) 1 1000) 10 =
      NF.fin (ts_current_price c9hist * m ^ (mc_days 1 - 1)) := by
    apply npPercentile_const
      (mc_finals_ne_nil _ _ _ _ _ _ _ (by norm_num)) (by norm_num) (by norm_num)
    intro x hx
    rcases List.mem_map.mp hx with ⟨i, hi, rfl⟩
    have hilt : i < 1000 := List.mem_range.mp hi
    exact simEntry_const c9E s _ _ (mc_days 1) i
      (fun t ht => hs i t hilt ht) hm0 hm1 c9cp_pos
      (cp_le_mc_cap (le_of_lt c9cp_pos) 1) (mc_days 1 - 1) (le_refl _)
  rw [hconst]
  rfl

/-- C9 counterexample: under the single fixed seed `c9shocks`, two successive
`predict` calls with identical inputs consume disjoint segments of the shared
global stream and report different lower confidence bounds. -/
theorem c9_counterexample :
    ((predict_twice_global c9E (fun x => x) c9shocks c9hist
        default_features 1).1.toOption.map (fun r => r.confidence_lower)) ≠
    ((predict_twice_global c9E (fun x => x) c9shocks c9hist
        default_features 1).2.toOption.map (fun r => r.confidence_lower)) := by
  have hcons : shocksConsumed 1 = 1000 * (mc_days 1 - 1) := rfl
  have h1 := c9_call_lower c9shocks 1 (by norm_num) (le_refl 1) ?hs1
  have h2 := c9_call_lower (fun k => c9shocks (k + shocksConsumed 1)) (1 / 2)
    (by norm_num) (by norm_num) ?hs2
  case hs1 =>
    intro i t hi ht
    rw [c9drift_eq, c9diffusion_eq]
    have hz : c9shocks (i * (mc_days 1 - 1) + t) = 0 := by
      unfold c9shocks
      rw [if_pos]
      rw [hcons]
      calc i * (mc_days 1 - 1) + t < i * (mc_days 1 - 1) + (mc_days 1 - 1) := by omega
        _ = (i + 1) * (mc_days 1 - 1) := by ring
        _ ≤ 1000 * (mc_days 1 - 1) := Nat.mul_le_mul_right _ (by omega)
    rw [hz]
    exact c9step_at_zero
  case hs2 =>
    intro i t hi ht
    rw [c9drift_eq, c9diffusion_eq]
    have hz : c9shocks (i * (mc_days 1 - 1) + t + shocksConsumed 1) = 1 := by
      unfold c9shocks
      rw [if_neg]
      omega
    show stepMul _ _ _ (c9shocks (i * (mc_days 1 - 1) + t + shocksConsumed 1)) = _
    rw [hz]
    exact c9step_at_one
  simp only [predict_twice_global]
  rw [h1, h2]
  simp only [ne_eq, Option.some.injEq, NF.fin.injEq]
  intro heq
  have hD : 1 ≤ mc_days 1 - 1 := by norm_num [mc_days]
  have hp : ((1 : ℚ) / 2) ^ (mc_days 1 - 1) ≤ ((1 : ℚ) / 2) ^ 1 :=
    pow_le_pow_of_le_one (by norm_num) (by norm_num) hD
  have hlt : round2 (ts_current_price c9hist * (1 / 2) ^ (mc_days 1 - 1)) <
      round2 (ts_current_price c9hist * 1 ^ (mc_days 1 - 1)) := by
    apply round2_lt_of_add_one_le
    rw [one_pow, mul_one, c9cp_val]
    have hpow0 : (0 : ℚ) ≤ ((1 : ℚ) / 2) ^ (mc_days 1 - 1) := by positivity
    rw [pow_one] at hp
    nlinarith [hp, hpow0]
  rw [heq] at hlt
  exact lt_irrefl _ hlt

end Valuedex
